import Mathlib

/-!
# W25Qxx SPI NOR flash driver: a shallow embedding of `w25qxx.c`

The driver talks to the chip through two injected capabilities, a full-duplex
byte transfer and a blocking delay.  Here the chip is a `Device`: a state type
with a transfer function and a delay function.  Every driver routine is a
function on a `World` (device state, the bus trace so far, and a log of the
page-program invocations).  `unsigned` values are natural numbers reduced
modulo `2^32` where the C arithmetic can wrap; bytes are natural numbers.
Loops take a fuel argument and return `none` when it runs out: the busy poll,
which the source leaves unbounded, and the loops of `w25q_mount`, `w25q_write`
and `w25q_erase`, whose termination is proved rather than assumed.
-/

namespace W25Q

/-! ## Constants of `w25qxx.h` -/

/-- SPI delay time in ms. -/
def W25Q_DELAY_TIME : Nat := 1

/-- Flash producer id. -/
def W25Q_PRODUCER_ID : Nat := 0xef

/-- First enumerator of `enum w25q_id_t`. -/
def W25Q10_ID : Nat := 0x4011
/-- Enumerator of `enum w25q_id_t` (implicit value: previous + 1). -/
def W25Q20_ID : Nat := W25Q10_ID + 1
/-- Enumerator of `enum w25q_id_t` (implicit value: previous + 1). -/
def W25Q40_ID : Nat := W25Q20_ID + 1
/-- Enumerator of `enum w25q_id_t` (implicit value: previous + 1). -/
def W25Q80_ID : Nat := W25Q40_ID + 1
/-- Enumerator of `enum w25q_id_t` (implicit value: previous + 1). -/
def W25Q16_ID : Nat := W25Q80_ID + 1
/-- Enumerator of `enum w25q_id_t` (implicit value: previous + 1). -/
def W25Q32_ID : Nat := W25Q16_ID + 1
/-- Enumerator of `enum w25q_id_t` (implicit value: previous + 1). -/
def W25Q64_ID : Nat := W25Q32_ID + 1
/-- Enumerator of `enum w25q_id_t` (implicit value: previous + 1). -/
def W25Q128_ID : Nat := W25Q64_ID + 1
/-- Enumerator of `enum w25q_id_t` (implicit value: previous + 1). -/
def W25Q256_ID : Nat := W25Q128_ID + 1
/-- Last enumerator of `enum w25q_id_t` (implicit value: previous + 1). -/
def W25Q512_ID : Nat := W25Q256_ID + 1

/-- The enumerators of `enum w25q_id_t`, in declaration order. -/
def w25q_id_t : List Nat :=
  [W25Q10_ID, W25Q20_ID, W25Q40_ID, W25Q80_ID, W25Q16_ID,
   W25Q32_ID, W25Q64_ID, W25Q128_ID, W25Q256_ID, W25Q512_ID]

/-- Opcode `W25Q_WRITE_ENABLE`. -/
def W25Q_WRITE_ENABLE : Nat := 0x6
/-- Opcode `W25Q_VOLATILE_SR_WRITE_ENABLE`. -/
def W25Q_VOLATILE_SR_WRITE_ENABLE : Nat := 0x50
/-- Opcode `W25Q_WRITE_DISABLE`. -/
def W25Q_WRITE_DISABLE : Nat := 0x4
/-- Opcode `W25Q_READ_STATUS_REG_1`. -/
def W25Q_READ_STATUS_REG_1 : Nat := 0x5
/-- Opcode `W25Q_READ_STATUS_REG_2`. -/
def W25Q_READ_STATUS_REG_2 : Nat := 0x35
/-- Opcode `W25Q_READ_JEDEC_ID`. -/
def W25Q_READ_JEDEC_ID : Nat := 0x9f
/-- Opcode `W25Q_READ_DATA`. -/
def W25Q_READ_DATA : Nat := 0x3
/-- Opcode `W25Q_PAGE_PROGRAM`. -/
def W25Q_PAGE_PROGRAM : Nat := 0x2
/-- Opcode `W25Q_CHIP_ERASE`. -/
def W25Q_CHIP_ERASE : Nat := 0xc7
/-- Opcode `W25Q_SECTOR_ERASE`. -/
def W25Q_SECTOR_ERASE : Nat := 0x20
/-- Opcode `W25Q_32K_BLK_ERASE`. -/
def W25Q_32K_BLK_ERASE : Nat := 0x52
/-- Opcode `W25Q_64K_BLK_ERASE`. -/
def W25Q_64K_BLK_ERASE : Nat := 0xd8

/-- First enumerator of `enum w25q_size_t` (unit: 256-byte pages). -/
def W25Q10_SIZE : Nat := 512
/-- Enumerator of `enum w25q_size_t`. -/
def W25Q20_SIZE : Nat := 1024
/-- Enumerator of `enum w25q_size_t`. -/
def W25Q40_SIZE : Nat := 2048
/-- Enumerator of `enum w25q_size_t`. -/
def W25Q80_SIZE : Nat := 4096
/-- Enumerator of `enum w25q_size_t`. -/
def W25Q16_SIZE : Nat := 8192
/-- Enumerator of `enum w25q_size_t`. -/
def W25Q32_SIZE : Nat := 16384
/-- Enumerator of `enum w25q_size_t`. -/
def W25Q64_SIZE : Nat := 32768
/-- Last enumerator of `enum w25q_size_t`. -/
def W25Q128_SIZE : Nat := 65536

/-- The enumerators of `enum w25q_size_t`, in declaration order: the capacities
the header documents. -/
def w25q_size_t : List Nat :=
  [W25Q10_SIZE, W25Q20_SIZE, W25Q40_SIZE, W25Q80_SIZE,
   W25Q16_SIZE, W25Q32_SIZE, W25Q64_SIZE, W25Q128_SIZE]

/-- Range of the C type `unsigned` (32 bits on the targets of the driver). -/
def UINT : Nat := 4294967296

/-! ## Data model -/

/-- The fields `model` and `size` of `struct w25q_flash`.  The two function
pointers of the struct are the `Device` every routine receives. -/
structure Flash where
  model : Nat
  size : Nat
deriving DecidableEq, Repr

/-! ## The parameter validator -/

/-- Embedding of `w25q_check_param`.  A `NULL` handle or buffer is `none`. -/
def w25q_check_param (flash : Option Flash) (address : Nat)
    (buffer : Option (List Nat)) (buffer_size : Nat) : Nat :=
  match flash with
  | none => 0
  | some f =>
    let page_num := (address &&& 0xffffff00) >>> 8
    -- Check start address
    if page_num ≥ f.size then 0
    else
      -- Check end address
      let page_num := (((address + buffer_size) % UINT) &&& 0xffffff00) >>> 8
      if page_num > f.size then 0
      else
        match buffer with
        | none => 0
        | some _ => 1

/-! ## The bus: injected capabilities, trace, world -/

/-- One call of an injected capability, as it appears on the bus trace:
a transfer of `size` bytes carrying `request`, or a delay of `t` ms. -/
inductive BusEvent where
  | transfer (size : Nat) (request : List Nat)
  | delay (t : Nat)
deriving DecidableEq, Repr

/-- The two capabilities the caller injects (`w25q_spi_transfer_fn`,
`w25q_delay_fn`), acting on a device state `σ`.  `transfer s request` gives the
next device state and the bytes the device shifts out during the exchange. -/
structure Device (σ : Type) where
  transfer : σ → List Nat → σ × List Nat
  delay : σ → Nat → σ

/-- Record of one invocation of `w25q_page_program`: the address and the
buffer size it was called with, the bytes it transmitted after the 4-byte
header, and the count it returned. -/
structure PageProgramCall where
  address : Nat
  buffer_size : Nat
  payload : List Nat
  returned : Nat
deriving DecidableEq, Repr

/-- State threaded through the driver: the device, the bus trace (oldest
event first) and the log of page-program invocations (oldest first).  The two
logs are observations only: no routine reads them. -/
structure World (σ : Type) where
  dev : σ
  bus : List BusEvent
  calls : List PageProgramCall

/-- Call of `flash->spi_delay_func(t)`. -/
def spi_delay_func {σ : Type} (d : Device σ) (t : Nat) (w : World σ) : World σ :=
  { w with dev := d.delay w.dev t, bus := w.bus ++ [BusEvent.delay t] }

/-- Call of `flash->spi_send(buf, buf, size)`: request and response buffer are
the same memory, so the first `size` bytes of `buf` are sent and then replaced
by the response (a byte the device does not drive reads as `0xff`). -/
def spi_send {σ : Type} (d : Device σ) (buf : List Nat) (size : Nat) (w : World σ) :
    World σ × List Nat :=
  let r := d.transfer w.dev (buf.take size)
  ({ w with dev := r.1, bus := w.bus ++ [BusEvent.transfer size (buf.take size)] },
   (List.range size).map (fun i => r.2.getD i 0xff) ++ buf.drop size)

/-- Embedding of `set_dummy_bytes`: the first `size` bytes become `0xff`. -/
def set_dummy_bytes (p : List Nat) (size : Nat) : List Nat :=
  List.replicate size 0xff ++ p.drop size

/-! ## Status and synchronisation -/

/-- Embedding of `w25q_read_status_regs`; returns the 3-byte buffer, whose
bytes 0 and 1 are status register 1 and 2. -/
def w25q_read_status_regs {σ : Type} (d : Device σ) (buffer : List Nat) (w : World σ) :
    World σ × List Nat :=
  let result_buffer := set_dummy_bytes buffer 3
  -- Get the first status reg data
  let result_buffer := result_buffer.set 0 W25Q_READ_STATUS_REG_1
  let w := spi_delay_func d W25Q_DELAY_TIME w
  let r := spi_send d result_buffer 2 w
  let w := spi_delay_func d W25Q_DELAY_TIME r.1
  let result_buffer := r.2.set 0 (r.2.getD 1 0)
  -- Get the second status reg data
  let result_buffer := result_buffer.set 1 W25Q_READ_STATUS_REG_2
  let w := spi_delay_func d W25Q_DELAY_TIME w
  let r := spi_send d (result_buffer.drop 1) 2 w
  let result_buffer := result_buffer.take 1 ++ r.2
  let w := spi_delay_func d W25Q_DELAY_TIME r.1
  let result_buffer := result_buffer.set 1 (result_buffer.getD 2 0)
  (w, result_buffer)

/-- Embedding of `w25q_write_enable`. -/
def w25q_write_enable {σ : Type} (d : Device σ) (w : World σ) : World σ :=
  let w := spi_delay_func d W25Q_DELAY_TIME w
  let cmd := [W25Q_WRITE_ENABLE]
  let r := spi_send d cmd 1 w
  spi_delay_func d W25Q_DELAY_TIME r.1

/-- Embedding of `w25q_write_disable`. -/
def w25q_write_disable {σ : Type} (d : Device σ) (w : World σ) : World σ :=
  let cmd := [W25Q_WRITE_DISABLE]
  let w := spi_delay_func d W25Q_DELAY_TIME w
  let r := spi_send d cmd 1 w
  spi_delay_func d W25Q_DELAY_TIME r.1

/-- Embedding of `w25q_sr_write_enable`. -/
def w25q_sr_write_enable {σ : Type} (d : Device σ) (w : World σ) : World σ :=
  let cmd := [W25Q_VOLATILE_SR_WRITE_ENABLE]
  let w := spi_delay_func d W25Q_DELAY_TIME w
  let r := spi_send d cmd 1 w
  spi_delay_func d W25Q_DELAY_TIME r.1

/-- Embedding of `w25q_read_jedec`; returns the 4-byte buffer. -/
def w25q_read_jedec {σ : Type} (d : Device σ) (buffer : List Nat) (w : World σ) :
    World σ × List Nat :=
  let return_data := set_dummy_bytes buffer 4
  let return_data := return_data.set 0 W25Q_READ_JEDEC_ID
  let w := spi_delay_func d W25Q_DELAY_TIME w
  let r := spi_send d return_data 4 w
  let w := spi_delay_func d W25Q_DELAY_TIME r.1
  (w, r.2)

/-- Embedding of `w25q_wait_until_available`.  The `while (1)` loop runs at most
`fuel` status reads; `none` means the device was still busy at the last one. -/
def w25q_wait_until_available {σ : Type} (d : Device σ) : Nat → World σ → Option (World σ)
  | 0, _ => none
  | fuel + 1, w =>
    let r := w25q_read_status_regs d (List.replicate 3 0) w
    if (r.2.getD 0 0) &&& 0x1 = 0 then some r.1
    else w25q_wait_until_available d fuel (spi_delay_func d W25Q_DELAY_TIME r.1)

/-! ## Page program and erase primitives -/

/-- The `limit` computed by `w25q_page_program`: the number of bytes handed
to the transfer.  `buffer_size - 4` is an `unsigned` subtraction. -/
def page_program_limit (address buffer_size : Nat) : Nat :=
  if (buffer_size + UINT - 4) % UINT ≤ 256 - (address &&& 0xff) then buffer_size
  else 256 - (address &&& 0xff) + 4

/-- Embedding of `w25q_page_program`; returns the world, the buffer after the
exchange and the `unsigned short` count. -/
def w25q_page_program {σ : Type} (d : Device σ) (fuel : Nat) (address : Nat)
    (buffer : List Nat) (buffer_size : Nat) (w : World σ) :
    Option (World σ × List Nat × Nat) :=
  match w25q_wait_until_available d fuel w with
  | none => none
  | some w =>
    let w := w25q_write_enable d w
    -- Take min between buffer size and un-programmed bytes in the page
    let limit := page_program_limit address buffer_size
    let buf := buffer.set 0 W25Q_PAGE_PROGRAM
    let buf := buf.set 1 ((address >>> 16) &&& 0xff)
    let buf := buf.set 2 ((address >>> 8) &&& 0xff)
    let buf := buf.set 3 (address &&& 0xff)
    let w := spi_delay_func d W25Q_DELAY_TIME w
    let r := spi_send d buf limit w
    let w := spi_delay_func d W25Q_DELAY_TIME r.1
    let w := w25q_write_disable d w
    let ret := (((limit + UINT - 4) % UINT) &&& 0x1ff) % 65536
    some ({ w with calls := w.calls ++
              [{ address := address, buffer_size := buffer_size,
                 payload := (buf.take limit).drop 4, returned := ret }] },
          r.2, ret)

/-- Embedding of `w25q_sector_erase`. -/
def w25q_sector_erase {σ : Type} (d : Device σ) (fuel : Nat) (flash : Flash)
    (address : Nat) (w : World σ) : Option (World σ × Nat) :=
  let sector_num := (address >>> 12) &&& 0xfffff
  if sector_num ≥ flash.size then some (w, 0)
  else
    let cmd := [W25Q_SECTOR_ERASE, (address >>> 16) &&& 0xff, (address >>> 8) &&& 0xf0, 0]
    match w25q_wait_until_available d fuel w with
    | none => none
    | some w =>
      let w := w25q_write_enable d w
      let w := spi_delay_func d W25Q_DELAY_TIME w
      let r := spi_send d cmd 4 w
      let w := spi_delay_func d W25Q_DELAY_TIME r.1
      match w25q_wait_until_available d fuel w with
      | none => none
      | some w => some (w, 1)

/-- Embedding of `w25q_32k_blk_erase`: the command is built and never sent. -/
def w25q_32k_blk_erase {σ : Type} (flash : Flash) (address : Nat) (w : World σ) :
    World σ × Nat :=
  let sector_num := (address >>> 12) &&& 0xfffff
  if sector_num ≥ flash.size then (w, 0)
  else (w, 1)

/-- Embedding of `w25q_64k_blk_erase`. -/
def w25q_64k_blk_erase {σ : Type} (d : Device σ) (fuel : Nat) (flash : Flash)
    (address : Nat) (w : World σ) : Option (World σ × Nat) :=
  let sector_num := (address >>> 12) &&& 0xfffff
  if sector_num ≥ flash.size then some (w, 0)
  else
    let cmd := [W25Q_64K_BLK_ERASE, (address >>> 16) &&& 0xff, 0, 0]
    match w25q_wait_until_available d fuel w with
    | none => none
    | some w =>
      let w := w25q_write_enable d w
      let w := spi_delay_func d W25Q_DELAY_TIME w
      let r := spi_send d cmd 4 w
      let w := spi_delay_func d W25Q_DELAY_TIME r.1
      match w25q_wait_until_available d fuel w with
      | none => none
      | some w => some (w, 1)

/-! ## Standard functions -/

/-- The model-check loop of `w25q_mount`:
`for (id = W25Q10_ID, size = W25Q10_SIZE; id <= W25Q512_ID; id++, size *= 2)`.
The outer `none` is fuel exhaustion, `some none` is falling out of the loop. -/
def w25q_mount_scan (flash : Flash) (part_data : List Nat) :
    Nat → Nat → Nat → Option (Option Flash)
  | 0, _, _ => none
  | fuel + 1, id, size =>
    if id ≤ W25Q512_ID then
      if part_data.getD 2 0 = ((id >>> 8) &&& 0xff) ∧ part_data.getD 3 0 = (id &&& 0xff) then
        some (some { flash with model := id, size := size })
      else w25q_mount_scan flash part_data fuel (id + 1) (size * 2)
    else some none

/-- Embedding of `w25q_mount`.  Installing the two function pointers is
receiving the device `d`.  The result is the returned pointer: `some none` is
`NULL`, `some (some f)` is the handle with its fields as the function left them. -/
def w25q_mount {σ : Type} (d : Device σ) (fuel : Nat) (flash : Flash) (w : World σ) :
    Option (World σ × Option Flash) :=
  let r := w25q_read_jedec d (List.replicate 4 0) w
  let part_data := r.2
  -- Check Manufacturer
  if part_data.getD 1 0 ≠ W25Q_PRODUCER_ID then some (r.1, none)
  else
    -- Check model
    match w25q_mount_scan flash part_data fuel W25Q10_ID W25Q10_SIZE with
    | none => none
    | some res => some (r.1, res)

/-- Embedding of `w25q_read`; returns the world, the caller's buffer after the
call and the status.  (The `printf` of the source writes to the console, which
is not part of the model.) -/
def w25q_read {σ : Type} (d : Device σ) (flash : Option Flash) (address : Nat)
    (buffer : Option (List Nat)) (buffer_size : Nat) (w : World σ) :
    World σ × Option (List Nat) × Nat :=
  -- Check parameters
  if w25q_check_param flash address buffer buffer_size = 0 then (w, buffer, 0)
  else
    match buffer with
    | none => (w, buffer, 0)
    | some buf =>
      let buf := buf.set 0 W25Q_READ_DATA
      let buf := buf.set 1 ((address >>> 16) &&& 0xff)
      let buf := buf.set 2 ((address >>> 8) &&& 0xff)
      let buf := buf.set 3 (address &&& 0xff)
      let r := spi_send d buf buffer_size w
      let w := spi_delay_func d W25Q_DELAY_TIME r.1
      (w, some r.2, 1)

/-- Embedding of `memcpy(&dst[off], src, n)` for `n = src.length`. -/
def memcpy (dst : List Nat) (off : Nat) (src : List Nat) : List Nat :=
  dst.take off ++ src ++ dst.drop (off + src.length)

/-- The `for` loop of `w25q_write`.  The first numeric argument bounds the
number of iterations (`none` when it runs out). -/
def w25q_write_loop {σ : Type} (d : Device σ) (fuel : Nat) (address : Nat)
    (buf : List Nat) (buffer_size : Nat) :
    Nat → Nat → List Nat → World σ → Option (World σ)
  | 0, _, _, _ => none
  | n + 1, programmed_bytes, temp_buf, w =>
    if programmed_bytes < buffer_size then
      let limit :=
        if buffer_size - programmed_bytes ≤ 256 then buffer_size - programmed_bytes
        else 256
      let temp_buf := memcpy temp_buf 4 ((buf.drop programmed_bytes).take limit)
      match w25q_page_program d fuel ((address + programmed_bytes) % UINT) temp_buf
              ((limit + 4) % UINT) w with
      | none => none
      | some (w, temp_buf, ret) =>
        w25q_write_loop d fuel address buf buffer_size n
          ((programmed_bytes + ret) % UINT) temp_buf w
    else some w

/-- Embedding of `w25q_write`.  The caller's buffer is only read.  `fuel` bounds
both the busy polls of each page program and the number of loop iterations.
The scratch array `temp_buf[265]` starts with indeterminate contents in C and
with zeros here; every byte of it that is sent has been written before. -/
def w25q_write {σ : Type} (d : Device σ) (fuel : Nat) (flash : Option Flash)
    (address : Nat) (buffer : Option (List Nat)) (buffer_size : Nat) (w : World σ) :
    Option (World σ × Nat) :=
  -- Check parameters
  if w25q_check_param flash address buffer buffer_size = 0 then some (w, 0)
  else
    match buffer with
    | none => some (w, 0)
    | some buf =>
      match w25q_write_loop d fuel address buf buffer_size fuel 0 (List.replicate 265 0) w with
      | none => none
      | some w => some (w, 1)

/-- The `while` loop of `w25q_erase`.  The first numeric argument bounds the
number of iterations (`none` when it runs out). -/
def w25q_erase_loop {σ : Type} (d : Device σ) (fuel : Nat) (flash : Flash)
    (end_address : Nat) : Nat → Nat → World σ → Option (World σ)
  | 0, _, _ => none
  | n + 1, start_address, w =>
    if start_address < end_address then
      match w25q_sector_erase d fuel flash start_address w with
      | none => none
      | some (w, _) =>
        w25q_erase_loop d fuel flash end_address n ((start_address + 4096) % UINT) w
    else some w

/-- Embedding of `w25q_erase`. -/
def w25q_erase {σ : Type} (d : Device σ) (fuel : Nat) (flash : Flash)
    (start_address end_address : Nat) (w : World σ) : Option (World σ × Nat) :=
  if end_address ≤ start_address then some (w, 0)
  else if (end_address >>> 8) > flash.size then some (w, 0)
  else
    match w25q_erase_loop d fuel flash end_address fuel start_address w with
    | none => none
    | some w => some (w, 1)

/-- Embedding of `w25q_erase_all`. -/
def w25q_erase_all {σ : Type} (d : Device σ) (fuel : Nat) (flash : Option Flash)
    (w : World σ) : Option (World σ × Nat) :=
  let cmd := [W25Q_CHIP_ERASE]
  match flash with
  | none => some (w, 0)
  | some _ =>
    let w := w25q_write_enable d w
    match w25q_wait_until_available d fuel w with
    | none => none
    | some w =>
      let w := spi_delay_func d W25Q_DELAY_TIME w
      let r := spi_send d cmd 1 w
      let w := spi_delay_func d W25Q_DELAY_TIME r.1
      match w25q_wait_until_available d fuel w with
      | none => none
      | some w => some (w25q_write_disable d w, 1)

/-! ## A simulated chip -/

/-- Modelled from the spec: the simulated device of the end-to-end scenario
(the repository has no device model).  Its state is the byte array of the chip,
indexed by byte address; the array is not bounded, so a read that starts at a
frame address runs on through the following addresses. -/
structure SimFlash where
  mem : Nat → Nat

/-- Modelled from the spec: the 24-bit address carried by bytes 1..3 of a
command frame (big-endian). -/
def frame_address (req : List Nat) : Nat :=
  req.getD 1 0 * 65536 + req.getD 2 0 * 256 + req.getD 3 0

/-- Modelled from the spec: the transfer capability of the simulated device.
It answers the JEDEC read with producer id `0xEF` and the device-id bytes of
the 8192-page model, reports both status registers as zero (every operation
has completed before the next command), programs the payload of a page-program
frame at the frame address (programming clears bits: on an erased byte, `0xff`,
it stores the payload byte), and answers a data read with the stored bytes
from the frame address onwards after the four header bytes. -/
def SimFlash.transfer (s : SimFlash) (req : List Nat) : SimFlash × List Nat :=
  if req.getD 0 0xff = W25Q_READ_JEDEC_ID then (s, [0xff, 0xef, 0x40, 0x15])
  else if req.getD 0 0xff = W25Q_READ_STATUS_REG_1 then (s, [0xff, 0x00])
  else if req.getD 0 0xff = W25Q_READ_STATUS_REG_2 then (s, [0xff, 0x00])
  else if req.getD 0 0xff = W25Q_PAGE_PROGRAM then
    ({ mem := fun a =>
         if frame_address req ≤ a ∧ a < frame_address req + (req.length - 4) then
           s.mem a &&& req.getD (4 + (a - frame_address req)) 0xff
         else s.mem a },
     List.replicate req.length 0xff)
  else if req.getD 0 0xff = W25Q_READ_DATA then
    (s, List.replicate 4 0xff ++
          (List.range (req.length - 4)).map (fun i => s.mem (frame_address req + i)))
  else (s, List.replicate req.length 0xff)

/-- Modelled from the spec: the simulated device as a pair of capabilities;
a delay leaves the chip unchanged. -/
def simDevice : Device SimFlash where
  transfer := SimFlash.transfer
  delay := fun s _ => s

/-- Modelled from the spec: a simulated device answering every exchange with a
transport byte, the producer id `m` and the device-id bytes `hi`, `lo`. -/
def idDevice (m hi lo : Nat) : Device Unit where
  transfer := fun s _ => (s, [0xff, m, hi, lo])
  delay := fun s _ => s

/-- Modelled from the spec: a device whose state counts the status reads it
will still answer with the busy bit set: while the count is positive, a read of
status register 1 answers `0x03` (bit 0 set) and lowers the count; after that
it answers `0xfe` (bit 0 clear, every other bit set).  Status register 2 reads
`0x02`. -/
def busyDevice : Device Nat where
  transfer := fun s req =>
    if req.getD 0 0xff = W25Q_READ_STATUS_REG_1 then
      (s - 1, [0xff, if 0 < s then 0x03 else 0xfe])
    else if req.getD 0 0xff = W25Q_READ_STATUS_REG_2 then (s, [0xff, 0x02])
    else (s, List.replicate req.length 0xff)
  delay := fun s _ => s

/-- Modelled from the spec: a fully erased chip, every byte `0xff`. -/
def SimFlash.erased : SimFlash := { mem := fun _ => 0xff }

/-- The world before the first call: the given device state and empty logs. -/
def World.init {σ : Type} (s : σ) : World σ := { dev := s, bus := [], calls := [] }

/-- The 8 bytes the example writes: the characters of `"forkbomb"`. -/
def example_data : List Nat := [0x66, 0x6f, 0x72, 0x6b, 0x62, 0x6f, 0x6d, 0x62]

/-- The write loop of the example's `setup`:
`for (i = 0; i < 32; i++) w25q_write(&flash, i * 8, data, 8)`, here for the
remaining `n` iterations starting at index `i`. -/
def example_writes {σ : Type} (d : Device σ) (fuel : Nat) (flash : Flash) :
    Nat → Nat → World σ → Option (World σ)
  | 0, _, w => some w
  | n + 1, i, w =>
    match w25q_write d fuel (some flash) (i * 8) (some (example_data ++ [0, 0])) 8 w with
    | none => none
    | some (w, _) => example_writes d fuel flash n (i + 1) w

/-- The example's writes followed by its read of 260 bytes from address 0 into
`sample_buf` (270 bytes, zero-initialised static storage); returns the buffer. -/
def example_run {σ : Type} (d : Device σ) (fuel : Nat) (flash : Flash) (w : World σ) :
    Option (List Nat) :=
  match example_writes d fuel flash 32 0 w with
  | none => none
  | some w => (w25q_read d (some flash) 0 (some (List.replicate 270 0)) 260 w).2.1

/-! ## Vocabulary for the statements -/

/-- A device that eventually reports ready: from every state the busy poll
sees bit 0 of status register 1 clear after finitely many status reads. -/
def Ready {σ : Type} (d : Device σ) : Prop :=
  ∀ w : World σ, ∃ n, (w25q_wait_until_available d n w).isSome = true

/-- Opcode of a bus event: the first request byte of a transfer. -/
def BusEvent.opcode : BusEvent → Option Nat
  | BusEvent.transfer _ request => request.head?
  | BusEvent.delay _ => none

/-- Number of transfers in a trace whose first byte is `op`. -/
def opcodeCount (op : Nat) (trace : List BusEvent) : Nat :=
  trace.countP (fun e => e.opcode == some op)

/-- Bus trace of one status read: two 2-byte transfers, each between delays. -/
def pollTrace : List BusEvent :=
  [BusEvent.delay 1, BusEvent.transfer 2 [0x05, 0xff], BusEvent.delay 1,
   BusEvent.delay 1, BusEvent.transfer 2 [0x35, 0xff], BusEvent.delay 1]

/-- Bus trace of a busy poll that sees the device busy `k` times: `k + 1`
status reads with a delay after each of the first `k`. -/
def waitTrace : Nat → List BusEvent
  | 0 => pollTrace
  | k + 1 => pollTrace ++ [BusEvent.delay 1] ++ waitTrace k

/-- Bus trace of a single-opcode command (`w25q_write_enable`,
`w25q_write_disable`): a 1-byte transfer between two delays. -/
def cmdTrace (op : Nat) : List BusEvent :=
  [BusEvent.delay 1, BusEvent.transfer 1 [op], BusEvent.delay 1]

/-- A buffer after the four header assignments `buf[0] = opcode`,
`buf[1] = (address >> 16) & 0xff`, `buf[2] = (address >> 8) & 0xff`,
`buf[3] = address & 0xff` of `w25q_page_program` and `w25q_read`. -/
def with_header (opcode address : Nat) (buf : List Nat) : List Nat :=
  (((buf.set 0 opcode).set 1 ((address >>> 16) &&& 0xff)).set 2
    ((address >>> 8) &&& 0xff)).set 3 (address &&& 0xff)

/-- Bus trace of an addressed command or data frame: one transfer of `size`
bytes between two delays. -/
def frameTrace (size : Nat) (frame : List Nat) : List BusEvent :=
  [BusEvent.delay 1, BusEvent.transfer size frame, BusEvent.delay 1]

/-- Successive page-program calls starting at address `a`: the first call is
at `a`, every call returns a count of at least 1, and each next call is at the
previous call's address plus its returned count. -/
def SuccessiveFrom (a : Nat) : List PageProgramCall → Prop
  | [] => True
  | c :: cs => c.address = a ∧ 1 ≤ c.returned ∧ SuccessiveFrom (a + c.returned) cs

/-- Whether `w25q_mount` returns a handle on a device answering producer id
`0xEF` and the two bytes of the 16-bit device id `id`. -/
def mountSucceeds (id : Nat) : Bool :=
  match w25q_mount (idDevice W25Q_PRODUCER_ID (id / 256) (id % 256)) 11
      { model := 0, size := 0 } (World.init ()) with
  | some (_, some _) => true
  | _ => false

/-- The set of 16-bit device ids on which `w25q_mount` succeeds. -/
def mountedIds : Finset Nat :=
  (Finset.range 65536).filter (fun id => mountSucceeds id = true)

/-- The world at the start of the `k`-th status read of a busy poll that has
found the device busy `k` times: each round is a status read followed by the
inter-poll delay. -/
def pollWorld {σ : Type} (d : Device σ) : Nat → World σ → World σ
  | 0, w => w
  | k + 1, w =>
    pollWorld d k
      (spi_delay_func d W25Q_DELAY_TIME (w25q_read_status_regs d (List.replicate 3 0) w).1)

/-- Status register 1 as returned by the `k`-th status read (counted from 0)
of a busy poll started in `w`. -/
def reg1At {σ : Type} (d : Device σ) (k : Nat) (w : World σ) : Nat :=
  (w25q_read_status_regs d (List.replicate 3 0) (pollWorld d k w)).2.getD 0 0

/-- Number of delay events in a trace. -/
def delayCount (trace : List BusEvent) : Nat :=
  trace.countP (fun e => e.opcode == none)

/-- The requests of the transfers in a trace whose first byte is `op`, in
order. -/
def framesWith (op : Nat) (trace : List BusEvent) : List (List Nat) :=
  trace.filterMap (fun e =>
    match e with
    | BusEvent.transfer _ request => if request.head? = some op then some request else none
    | BusEvent.delay _ => none)

/-- The sector-erase frame for the 4096-aligned address `A`:
`[0x20, A[23:16], A[15:8], A[7:0]]`. -/
def sectorFrame (A : Nat) : List Nat :=
  [W25Q_SECTOR_ERASE, A / 65536 % 256, A / 256 % 256, A % 256]

/-! # Theorems -/

theorem and_ff (x : Nat) : x &&& 0xff = x % 256 :=
  Nat.and_pow_two_sub_one_eq_mod x 8

theorem and_1ff (x : Nat) : x &&& 0x1ff = x % 512 :=
  Nat.and_pow_two_sub_one_eq_mod x 9

theorem and_fffff (x : Nat) : x &&& 0xfffff = x % 1048576 :=
  Nat.and_pow_two_sub_one_eq_mod x 20

theorem shr8 (x : Nat) : x >>> 8 = x / 256 := Nat.shiftRight_eq_div_pow x 8
theorem shr12 (x : Nat) : x >>> 12 = x / 4096 := Nat.shiftRight_eq_div_pow x 12
theorem shr16 (x : Nat) : x >>> 16 = x / 65536 := Nat.shiftRight_eq_div_pow x 16

/-- The page number `(x & 0xffffff00) >> 8` of a 32-bit value is `x / 256`. -/
theorem page_num_eq (x : Nat) (hx : x < UINT) : (x &&& 0xffffff00) >>> 8 = x / 256 := by
  have h : (x &&& 0xffffff00) >>> 8 = (x >>> 8) &&& (2 ^ 24 - 1) := by
    apply Nat.eq_of_testBit_eq
    intro j
    have h0 : (0xffffff00 : Nat) = (2 ^ 24 - 1) <<< 8 := by decide
    rw [h0]
    simp only [Nat.testBit_shiftRight, Nat.testBit_and, Nat.testBit_shiftLeft,
      Nat.testBit_two_pow_sub_one]
    simp
  rw [h, Nat.and_pow_two_sub_one_eq_mod, shr8]
  unfold UINT at hx
  omega

theorem check_param_eq (f : Flash) (address buffer_size : Nat) (buffer : Option (List Nat))
    (ha : address < UINT) :
    w25q_check_param (some f) address buffer buffer_size =
      if f.size ≤ address / 256 then 0
      else if f.size < (address + buffer_size) % UINT / 256 then 0
      else if buffer.isSome then 1 else 0 := by
  have hm : (address + buffer_size) % UINT < UINT := Nat.mod_lt _ (by decide)
  unfold w25q_check_param
  simp only [page_num_eq address ha, page_num_eq _ hm, ge_iff_le, gt_iff_lt]
  cases buffer <;> simp


/-! ## The validator and the capacity -/

/-- C4, as stated, fails: the validator accepts the two bytes at addresses
131071 and 131072 on a 512-page chip, whose capacity is 131072 bytes. -/
theorem check_param_accepts_past_capacity :
    w25q_check_param (some { model := W25Q10_ID, size := W25Q10_SIZE }) 131071
        (some [0xaa, 0xbb]) 2 = 1 ∧
      ¬ (131071 + 2 ≤ 256 * W25Q10_SIZE) := by
  decide

/-- C4, amended: when the validator accepts a request whose end `address +
length` does not wrap, the handle is set, the buffer is present, the start
address is below the capacity in bytes and the end page index is at most the
capacity in pages, that is `address + length ≤ 256 * size + 255`. -/
theorem check_param_valid_bounds (flash : Option Flash) (address buffer_size : Nat)
    (buffer : Option (List Nat)) (ha : address < UINT)
    (hno : address + buffer_size < UINT)
    (hv : w25q_check_param flash address buffer buffer_size = 1) :
    ∃ f, flash = some f ∧ buffer.isSome ∧ address < 256 * f.size ∧
      (address + buffer_size) / 256 ≤ f.size ∧
      address + buffer_size ≤ 256 * f.size + 255 := by
  cases flash with
  | none => simp [w25q_check_param] at hv
  | some f =>
    rw [check_param_eq f address buffer_size buffer ha, Nat.mod_eq_of_lt hno] at hv
    refine ⟨f, rfl, ?_⟩
    split_ifs at hv with h1 h2 h3
    refine ⟨h3, ?_, ?_, ?_⟩ <;> omega

/-- Witness of `check_param_valid_bounds`: a 260-byte request at address 0 of
an 8192-page chip. -/
theorem check_param_valid_bounds_witness :
    ∃ f, some ({ model := W25Q16_ID, size := W25Q16_SIZE } : Flash) = some f ∧
      (some (List.replicate 260 0)).isSome ∧ 0 < 256 * f.size ∧
      (0 + 260) / 256 ≤ f.size ∧ 0 + 260 ≤ 256 * f.size + 255 :=
  check_param_valid_bounds (some { model := W25Q16_ID, size := W25Q16_SIZE }) 0 260
    (some (List.replicate 260 0)) (by decide) (by decide) (by decide)

/-- C5, at the failing input: on a 512-page chip the request of `2^32 - 256`
bytes at address 256 has `(address + length) / 256 = 2^24 > 512`, yet the
validator accepts it, because the 32-bit sum wraps to 0. -/
theorem check_param_accepts_wrapped_end :
    256 < UINT ∧ 4294967040 < UINT ∧ (256 + 4294967040) / 256 > W25Q10_SIZE ∧
      w25q_check_param (some { model := W25Q10_ID, size := W25Q10_SIZE }) 256
        (some (List.replicate 4294967040 0)) 4294967040 = 1 := by
  decide


/-! ## Identification -/

theorem read_jedec_length {σ : Type} (d : Device σ) (w : World σ) :
    (w25q_read_jedec d (List.replicate 4 0) w).2.length = 4 := by
  simp [w25q_read_jedec, spi_send, set_dummy_bytes]

/-- The model-check loop on a device-id byte pair, with enough fuel: it finds
the id `0x4011 + k` exactly when the bytes are `0x40` and `0x11 + k`, `k < 10`. -/
theorem mount_scan_eq (flash : Flash) (b0 b1 b2 b3 fuel : Nat) (hf : 11 ≤ fuel) :
    w25q_mount_scan flash [b0, b1, b2, b3] fuel W25Q10_ID W25Q10_SIZE =
      if b2 = 0x40 ∧ 0x11 ≤ b3 ∧ b3 ≤ 0x1a then
        some (some { flash with model := W25Q10_ID + (b3 - 0x11),
                                size := 512 * 2 ^ (b3 - 0x11) })
      else some none := by
  obtain ⟨n, rfl⟩ : ∃ n, fuel = n + 11 := ⟨fuel - 11, by omega⟩
  simp only [w25q_mount_scan, W25Q10_ID, W25Q10_SIZE, W25Q512_ID, W25Q256_ID, W25Q128_ID,
    W25Q64_ID, W25Q32_ID, W25Q16_ID, W25Q80_ID, W25Q40_ID, W25Q20_ID]
  simp only [and_ff, shr8, List.getD_cons_succ, List.getD_cons_zero]
  norm_num
  by_cases h : b2 = 64 ∧ 17 ≤ b3 ∧ b3 ≤ 26
  · obtain ⟨h2, hl, hu⟩ := h
    subst h2
    interval_cases b3 <;> simp
  · rw [if_neg h]
    rw [if_neg, if_neg, if_neg, if_neg, if_neg, if_neg, if_neg, if_neg, if_neg, if_neg]
    all_goals omega


theorem mount_eq {σ : Type} (d : Device σ) (fuel : Nat) (flash : Flash) (w : World σ)
    (b0 b1 b2 b3 : Nat)
    (hr : (w25q_read_jedec d (List.replicate 4 0) w).2 = [b0, b1, b2, b3])
    (hf : 11 ≤ fuel) :
    w25q_mount d fuel flash w =
      some ((w25q_read_jedec d (List.replicate 4 0) w).1,
        if b1 = W25Q_PRODUCER_ID ∧ b2 = 0x40 ∧ 0x11 ≤ b3 ∧ b3 ≤ 0x1a then
          some { flash with model := W25Q10_ID + (b3 - 0x11), size := 512 * 2 ^ (b3 - 0x11) }
        else none) := by
  unfold w25q_mount
  simp only [hr, List.getD_cons_succ, List.getD_cons_zero, mount_scan_eq flash b0 b1 b2 b3 fuel hf]
  by_cases h1 : b1 = W25Q_PRODUCER_ID
  · by_cases h2 : b2 = 0x40 ∧ 0x11 ≤ b3 ∧ b3 ≤ 0x1a
    · simp [h1, h2]
    · simp [h1, h2]
  · simp [h1]

/-- C6, as stated, fails at the ninth id: on a device answering `0xEF, 0x40,
0x19` (`W25Q256_ID`) mount succeeds with size 131072, and `enum w25q_size_t`
documents no such capacity (its last enumerator is `W25Q128_SIZE = 65536`). -/
theorem mount_size_not_documented :
    (w25q_mount (idDevice 0xef 0x40 0x19) 11 { model := 0, size := 0 } (World.init ())).map
        (fun r => r.2) = some (some { model := W25Q256_ID, size := 131072 }) ∧
      w25q_id_t.get? 8 = some W25Q256_ID ∧
      w25q_size_t.get? 8 = none ∧ 131072 ∉ w25q_size_t := by
  decide

/-- C6, amended: for a JEDEC response with manufacturer byte `0xEF` and
device-id bytes `0x40`, `0x11 + k` of the `k`-th id of `enum w25q_id_t`
(`k < 10`), mount returns the handle with model `0x4011 + k` and size
`512 * 2^k` pages.  For `k < 8` that size is the `k`-th enumerator of
`enum w25q_size_t`; for the last two ids the enum has no enumerator. -/
theorem mount_assigns_capacity {σ : Type} (d : Device σ) (fuel : Nat) (flash : Flash)
    (w : World σ) (b0 k : Nat) (hk : k < 10)
    (hr : (w25q_read_jedec d (List.replicate 4 0) w).2 = [b0, 0xef, 0x40, 0x11 + k])
    (hf : 11 ≤ fuel) :
    (∃ w1, w25q_mount d fuel flash w =
        some (w1, some { flash with model := W25Q10_ID + k, size := W25Q10_SIZE * 2 ^ k })) ∧
      w25q_id_t.get? k = some (W25Q10_ID + k) ∧
      (k < 8 → w25q_size_t.get? k = some (W25Q10_SIZE * 2 ^ k)) ∧
      (8 ≤ k → w25q_size_t.get? k = none) := by
  refine ⟨⟨(w25q_read_jedec d (List.replicate 4 0) w).1, ?_⟩, ?_, ?_, ?_⟩
  · rw [mount_eq d fuel flash w b0 0xef 0x40 (0x11 + k) hr hf]
    have h : (0xef : Nat) = W25Q_PRODUCER_ID ∧ (0x40 : Nat) = 0x40 ∧ 0x11 ≤ 0x11 + k ∧
        0x11 + k ≤ 0x1a := ⟨rfl, rfl, by omega, by omega⟩
    rw [if_pos h]
    simp [W25Q10_SIZE]
  · interval_cases k <;> rfl
  · intro h8
    interval_cases k <;> rfl
  · intro h8
    interval_cases k <;> rfl

/-- Witness of `mount_assigns_capacity`: device-id bytes `0x40, 0x15` give a
handle of size 8192. -/
theorem mount_assigns_capacity_witness :
    (∃ w1, w25q_mount simDevice 11 { model := 0, size := 0 } (World.init SimFlash.erased) =
        some (w1, some { model := W25Q16_ID, size := 8192 })) ∧
      w25q_id_t.get? 4 = some W25Q16_ID ∧
      (4 < 8 → w25q_size_t.get? 4 = some 8192) ∧
      (8 ≤ 4 → w25q_size_t.get? 4 = none) :=
  mount_assigns_capacity simDevice 11 { model := 0, size := 0 } (World.init SimFlash.erased)
    0xff 4 (by decide) (by rfl) (by decide)

/-- C7: whenever the manufacturer byte of the JEDEC response differs from
`0xEF`, mount returns `NULL`, whatever the other three bytes are (and without
entering the model-check loop: any fuel will do). -/
theorem mount_wrong_manufacturer {σ : Type} (d : Device σ) (fuel : Nat) (flash : Flash)
    (w : World σ) (b0 b1 b2 b3 : Nat)
    (hr : (w25q_read_jedec d (List.replicate 4 0) w).2 = [b0, b1, b2, b3])
    (hb : b1 ≠ W25Q_PRODUCER_ID) :
    ∃ w1, w25q_mount d fuel flash w = some (w1, none) := by
  refine ⟨(w25q_read_jedec d (List.replicate 4 0) w).1, ?_⟩
  unfold w25q_mount
  simp only [hr, List.getD_cons_succ, List.getD_cons_zero]
  simp [hb]

/-- Witness of `mount_wrong_manufacturer`: a device answering producer id
`0xC2` with the device-id bytes of a supported model. -/
theorem mount_wrong_manufacturer_witness :
    ∃ w1, w25q_mount (idDevice 0xc2 0x40 0x15) 0 { model := 0, size := 0 } (World.init ()) =
      some (w1, none) :=
  mount_wrong_manufacturer (idDevice 0xc2 0x40 0x15) 0 { model := 0, size := 0 }
    (World.init ()) 0xff 0xc2 0x40 0x15 (by rfl) (by decide)

/-- C8: with enough fuel for the ten ids, mount returns, and it returns a
handle exactly when the manufacturer byte is `0xEF` and the 16-bit device id
formed by the two device-id bytes is an enumerator of `enum w25q_id_t`; the
enumerators are pairwise distinct. -/
theorem mount_succeeds_iff {σ : Type} (d : Device σ) (fuel : Nat) (flash : Flash)
    (w : World σ) (b0 b1 b2 b3 : Nat)
    (hr : (w25q_read_jedec d (List.replicate 4 0) w).2 = [b0, b1, b2, b3])
    (h2 : b2 < 256) (h3 : b3 < 256) (hf : 11 ≤ fuel) :
    (∃ w1 res, w25q_mount d fuel flash w = some (w1, res) ∧
        (res.isSome ↔ b1 = W25Q_PRODUCER_ID ∧ b2 * 256 + b3 ∈ w25q_id_t) ∧
        (res = none ↔ ¬ (b1 = W25Q_PRODUCER_ID ∧ b2 * 256 + b3 ∈ w25q_id_t))) ∧
      w25q_id_t.Nodup := by
  have hmem : b2 * 256 + b3 ∈ w25q_id_t ↔ (b2 = 0x40 ∧ 0x11 ≤ b3 ∧ b3 ≤ 0x1a) := by
    simp only [w25q_id_t, W25Q10_ID, W25Q512_ID, W25Q256_ID, W25Q128_ID,
      W25Q64_ID, W25Q32_ID, W25Q16_ID, W25Q80_ID, W25Q40_ID, W25Q20_ID, List.mem_cons,
      List.mem_singleton]
    simp only [List.not_mem_nil, or_false]
    omega
  refine ⟨⟨_, _, mount_eq d fuel flash w b0 b1 b2 b3 hr hf, ?_, ?_⟩, by decide⟩
  · rw [hmem]
    by_cases h : b1 = W25Q_PRODUCER_ID ∧ b2 = 0x40 ∧ 0x11 ≤ b3 ∧ b3 ≤ 0x1a
    · rw [if_pos h]; simp [h.1, h.2]
    · rw [if_neg h]
      simp only [Option.isSome_none, Bool.false_eq_true, false_iff]
      exact h
  · rw [hmem]
    by_cases h : b1 = W25Q_PRODUCER_ID ∧ b2 = 0x40 ∧ 0x11 ≤ b3 ∧ b3 ≤ 0x1a
    · rw [if_pos h]; simp [h.1, h.2]
    · rw [if_neg h]
      simp only [true_iff]
      exact h

/-- Witness of `mount_succeeds_iff` on the simulated chip (id `0x4015`). -/
theorem mount_succeeds_iff_witness :
    (∃ w1 res, w25q_mount simDevice 11 { model := 0, size := 0 } (World.init SimFlash.erased) =
          some (w1, res) ∧
        (res.isSome ↔ 0xef = W25Q_PRODUCER_ID ∧ 0x40 * 256 + 0x15 ∈ w25q_id_t) ∧
        (res = none ↔ ¬ (0xef = W25Q_PRODUCER_ID ∧ 0x40 * 256 + 0x15 ∈ w25q_id_t))) ∧
      w25q_id_t.Nodup :=
  mount_succeeds_iff simDevice 11 { model := 0, size := 0 } (World.init SimFlash.erased)
    0xff 0xef 0x40 0x15 (by rfl) (by decide) (by decide) (by decide)


/-! ## Bus traces of the primitives -/

theorem read_status_regs_bus {σ : Type} (d : Device σ) (buffer : List Nat) (w : World σ) :
    (w25q_read_status_regs d buffer w).1.bus = w.bus ++ pollTrace ∧
      (w25q_read_status_regs d buffer w).1.calls = w.calls := by
  have h2 : List.range 2 = [0, 1] := rfl
  simp [w25q_read_status_regs, spi_send, spi_delay_func, set_dummy_bytes, pollTrace,
    W25Q_DELAY_TIME, W25Q_READ_STATUS_REG_1, W25Q_READ_STATUS_REG_2, h2]

theorem write_enable_bus {σ : Type} (d : Device σ) (w : World σ) :
    (w25q_write_enable d w).bus = w.bus ++ cmdTrace 0x06 ∧
      (w25q_write_enable d w).calls = w.calls := by
  simp [w25q_write_enable, spi_send, spi_delay_func, cmdTrace, W25Q_DELAY_TIME,
    W25Q_WRITE_ENABLE]

theorem write_disable_bus {σ : Type} (d : Device σ) (w : World σ) :
    (w25q_write_disable d w).bus = w.bus ++ cmdTrace 0x04 ∧
      (w25q_write_disable d w).calls = w.calls := by
  simp [w25q_write_disable, spi_send, spi_delay_func, cmdTrace, W25Q_DELAY_TIME,
    W25Q_WRITE_DISABLE]

/-- More fuel does not change the outcome of a busy poll that ended. -/
theorem wait_mono {σ : Type} (d : Device σ) (n : Nat) :
    ∀ (w w1 : World σ), w25q_wait_until_available d n w = some w1 →
      ∀ m, n ≤ m → w25q_wait_until_available d m w = some w1 := by
  induction n with
  | zero => intro w w1 h; simp [w25q_wait_until_available] at h
  | succ n ih =>
    intro w w1 h m hm
    obtain ⟨m, rfl⟩ : ∃ k, m = k + 1 := ⟨m - 1, by omega⟩
    simp only [w25q_wait_until_available] at h ⊢
    split_ifs at h ⊢ with hc
    · exact h
    · exact ih _ _ h m (by omega)

/-- A busy poll that ends has issued status reads and delays only. -/
theorem wait_bus {σ : Type} (d : Device σ) (n : Nat) :
    ∀ (w w1 : World σ), w25q_wait_until_available d n w = some w1 →
      (∃ k, k < n ∧ w1.bus = w.bus ++ waitTrace k) ∧ w1.calls = w.calls := by
  induction n with
  | zero => intro w w1 h; simp [w25q_wait_until_available] at h
  | succ n ih =>
    intro w w1 h
    simp only [w25q_wait_until_available] at h
    split_ifs at h with hc
    · cases h
      exact ⟨⟨0, by omega, (read_status_regs_bus d _ w).1⟩, (read_status_regs_bus d _ w).2⟩
    · obtain ⟨⟨k, hk, hb⟩, hcalls⟩ := ih _ _ h
      refine ⟨⟨k + 1, by omega, ?_⟩, ?_⟩
      · rw [hb]
        simp [spi_delay_func, (read_status_regs_bus d _ w).1, waitTrace, W25Q_DELAY_TIME]
      · rw [hcalls]
        simp [spi_delay_func, (read_status_regs_bus d _ w).2]

theorem simDevice_ready : Ready simDevice := by
  intro w
  refine ⟨1, ?_⟩
  have h2 : List.range 2 = [0, 1] := rfl
  simp [w25q_wait_until_available, w25q_read_status_regs, spi_send, spi_delay_func,
    set_dummy_bytes, simDevice, SimFlash.transfer, W25Q_DELAY_TIME, W25Q_READ_STATUS_REG_1,
    W25Q_READ_STATUS_REG_2, W25Q_READ_JEDEC_ID, h2]


/-! ## Page program -/

/-- The `limit` of `w25q_page_program` without the unsigned wrap. -/
theorem page_program_limit_eq (address buffer_size : Nat) (hs : buffer_size < UINT) :
    page_program_limit address buffer_size =
      if 4 ≤ buffer_size ∧ buffer_size - 4 ≤ 256 - address % 256 then buffer_size
      else 256 - address % 256 + 4 := by
  unfold page_program_limit
  rw [and_ff]
  unfold UINT at *
  have hm : address % 256 < 256 := Nat.mod_lt _ (by decide)
  by_cases h4 : 4 ≤ buffer_size
  · have e : (buffer_size + 4294967296 - 4) % 4294967296 = buffer_size - 4 := by omega
    rw [e]
    by_cases hc : buffer_size - 4 ≤ 256 - address % 256
    · rw [if_pos hc, if_pos ⟨h4, hc⟩]
    · rw [if_neg hc, if_neg (fun h => hc h.2)]
  · have e : (buffer_size + 4294967296 - 4) % 4294967296 = buffer_size + 4294967292 := by omega
    rw [e, if_neg (by omega), if_neg (fun h => h4 h.1)]

/-- The `limit` is at least the header size and at most a header plus the rest
of the page. -/
theorem page_program_limit_bounds (address buffer_size : Nat) (hs : buffer_size < UINT) :
    4 ≤ page_program_limit address buffer_size ∧
      page_program_limit address buffer_size - 4 ≤ 256 - address % 256 := by
  rw [page_program_limit_eq address buffer_size hs]
  have hm : address % 256 < 256 := Nat.mod_lt _ (by decide)
  split_ifs with h <;> omega

/-- The returned count `(limit - 4) & 0x1ff`, as an `unsigned short`, is
`limit - 4`. -/
theorem page_program_ret_eq (address buffer_size : Nat) (hs : buffer_size < UINT) :
    ((((page_program_limit address buffer_size) + UINT - 4) % UINT) &&& 0x1ff) % 65536 =
      page_program_limit address buffer_size - 4 := by
  have hb := page_program_limit_bounds address buffer_size hs
  rw [and_1ff]
  unfold UINT at *
  omega

/-- What `w25q_page_program` does once its busy poll has ended in `w0`. -/
theorem page_program_spec {σ : Type} (d : Device σ) (fuel address : Nat) (buffer : List Nat)
    (buffer_size : Nat) (w w0 : World σ) (hs : buffer_size < UINT)
    (hw : w25q_wait_until_available d fuel w = some w0) :
    ∃ w1 buf1, w25q_page_program d fuel address buffer buffer_size w =
        some (w1, buf1, page_program_limit address buffer_size - 4) ∧
      w1.bus = w0.bus ++ cmdTrace 0x06 ++
          frameTrace (page_program_limit address buffer_size)
            ((with_header 0x02 address buffer).take (page_program_limit address buffer_size)) ++
          cmdTrace 0x04 ∧
      w1.calls = w.calls ++
          [{ address := address, buffer_size := buffer_size,
             payload := ((with_header 0x02 address buffer).take
                          (page_program_limit address buffer_size)).drop 4,
             returned := page_program_limit address buffer_size - 4 }] ∧
      (page_program_limit address buffer_size ≤ buffer.length →
        buf1.length = buffer.length) := by
  have hcalls := (wait_bus d fuel w w0 hw).2
  unfold w25q_page_program
  rw [hw]
  simp only [page_program_ret_eq address buffer_size hs]
  refine ⟨_, _, rfl, ?_, ?_, ?_⟩
  · simp [(write_disable_bus d _).1, spi_delay_func, spi_send, (write_enable_bus d _).1,
      frameTrace, with_header, W25Q_DELAY_TIME, W25Q_PAGE_PROGRAM]
  · simp [(write_disable_bus d _).2, spi_delay_func, spi_send, (write_enable_bus d _).2,
      with_header, W25Q_PAGE_PROGRAM, hcalls]
  · intro hle
    simp [spi_send, hle]


/-- The outcome of `w25q_page_program` depends on the fuel only through the
outcome of its busy poll. -/
theorem page_program_fuel {σ : Type} (d : Device σ) (fuel fuel1 address : Nat)
    (buffer : List Nat) (buffer_size : Nat) (w w0 : World σ)
    (hw : w25q_wait_until_available d fuel w = some w0)
    (hw1 : w25q_wait_until_available d fuel1 w = some w0) :
    w25q_page_program d fuel1 address buffer buffer_size w =
      w25q_page_program d fuel address buffer buffer_size w := by
  unfold w25q_page_program
  rw [hw, hw1]

/-- C2: on a device that eventually reports ready, for every address and
every requested length, `w25q_page_program` returns, the count it returns is
at most `256 - address % 256`, so that the programmed range ends at or before
the next page boundary, and the one page-program transfer it issues, between
the write enable and the write disable, has exactly `4 + count` bytes. -/
theorem page_program_within_page {σ : Type} (d : Device σ) (hready : Ready d)
    (address : Nat) (buffer : List Nat) (buffer_size : Nat) (w : World σ)
    (hs : buffer_size < UINT) :
    ∃ N w0 w1 buf1 ret,
      (∀ fuel, N ≤ fuel →
        w25q_wait_until_available d fuel w = some w0 ∧
        w25q_page_program d fuel address buffer buffer_size w = some (w1, buf1, ret)) ∧
      ret ≤ 256 - address % 256 ∧
      address % 256 + ret ≤ 256 ∧
      w1.bus = w0.bus ++ cmdTrace W25Q_WRITE_ENABLE ++
        [BusEvent.delay 1,
         BusEvent.transfer (4 + ret)
           ((with_header W25Q_PAGE_PROGRAM address buffer).take (4 + ret)),
         BusEvent.delay 1] ++
        cmdTrace W25Q_WRITE_DISABLE := by
  obtain ⟨n, hn⟩ := hready w
  obtain ⟨w0, hw0⟩ := Option.isSome_iff_exists.mp hn
  obtain ⟨w1, buf1, hpp, hbus, -, -⟩ :=
    page_program_spec d n address buffer buffer_size w w0 hs hw0
  have hb := page_program_limit_bounds address buffer_size hs
  have hm : address % 256 < 256 := Nat.mod_lt _ (by decide)
  refine ⟨n, w0, w1, buf1, page_program_limit address buffer_size - 4,
    ?_, hb.2, by omega, ?_⟩
  · intro fuel hfuel
    have hw := wait_mono d n w w0 hw0 fuel hfuel
    exact ⟨hw, by rw [page_program_fuel d n fuel address buffer buffer_size w w0 hw0 hw, hpp]⟩
  · rw [hbus]
    have e : 4 + (page_program_limit address buffer_size - 4) =
        page_program_limit address buffer_size := by omega
    rw [e]
    rfl

/-- Witness of `page_program_within_page`: 260 bytes requested at address
0x1f0 of the simulated chip. -/
theorem page_program_within_page_witness :
    ∃ N w0 w1 buf1 ret,
      (∀ fuel, N ≤ fuel →
        w25q_wait_until_available simDevice fuel (World.init SimFlash.erased) = some w0 ∧
        w25q_page_program simDevice fuel 0x1f0 (List.replicate 265 0) 260
          (World.init SimFlash.erased) = some (w1, buf1, ret)) ∧
      ret ≤ 256 - 0x1f0 % 256 ∧
      0x1f0 % 256 + ret ≤ 256 ∧
      w1.bus = w0.bus ++ cmdTrace W25Q_WRITE_ENABLE ++
        [BusEvent.delay 1,
         BusEvent.transfer (4 + ret)
           ((with_header W25Q_PAGE_PROGRAM 0x1f0 (List.replicate 265 0)).take (4 + ret)),
         BusEvent.delay 1] ++
        cmdTrace W25Q_WRITE_DISABLE :=
  page_program_within_page simDevice simDevice_ready 0x1f0 (List.replicate 265 0) 260
    (World.init SimFlash.erased) (by decide)


/-! ## Erase -/

theorem opcodeCount_append (op : Nat) (l1 l2 : List BusEvent) :
    opcodeCount op (l1 ++ l2) = opcodeCount op l1 + opcodeCount op l2 := by
  simp [opcodeCount]

theorem opcodeCount_pollTrace (op : Nat) (h1 : op ≠ 0x05) (h2 : op ≠ 0x35) :
    opcodeCount op pollTrace = 0 := by
  simp [opcodeCount, pollTrace, BusEvent.opcode, List.countP_cons, Ne.symm h1, Ne.symm h2]

theorem opcodeCount_waitTrace (op : Nat) (h1 : op ≠ 0x05) (h2 : op ≠ 0x35) (k : Nat) :
    opcodeCount op (waitTrace k) = 0 := by
  induction k with
  | zero => exact opcodeCount_pollTrace op h1 h2
  | succ k ih =>
    simp only [waitTrace, opcodeCount_append, ih, opcodeCount_pollTrace op h1 h2]
    simp [opcodeCount, BusEvent.opcode]

theorem opcodeCount_cmdTrace (op c : Nat) :
    opcodeCount op (cmdTrace c) = if c = op then 1 else 0 := by
  simp [opcodeCount, cmdTrace, BusEvent.opcode, List.countP_cons]

theorem opcodeCount_frameTrace (op size : Nat) (frame : List Nat) :
    opcodeCount op (frameTrace size frame) = if frame.head? = some op then 1 else 0 := by
  simp [opcodeCount, frameTrace, BusEvent.opcode, List.countP_cons]

/-- The sector index `(address >> 12) & 0xfffff` of a 32-bit address. -/
theorem sector_num_eq (address : Nat) (ha : address < UINT) :
    (address >>> 12) &&& 0xfffff = address / 4096 := by
  rw [and_fffff, shr12]
  unfold UINT at ha
  omega

/-- On a device that eventually reports ready, `w25q_sector_erase` at an
address that passes the sector-index check returns 1 after one write enable
and one sector-erase frame, and no write disable. -/
theorem sector_erase_total {σ : Type} (d : Device σ) (hready : Ready d) (flash : Flash)
    (address : Nat) (w : World σ) (hsec : (address >>> 12) &&& 0xfffff < flash.size) :
    ∃ N w1 k0 k1,
      (∀ fuel, N ≤ fuel → w25q_sector_erase d fuel flash address w = some (w1, 1)) ∧
      w1.bus = w.bus ++ (waitTrace k0 ++ cmdTrace 0x06 ++
        frameTrace 4 [0x20, (address >>> 16) &&& 0xff, (address >>> 8) &&& 0xf0, 0] ++
        waitTrace k1) ∧
      w1.calls = w.calls := by
  obtain ⟨n0, hn0⟩ := hready w
  obtain ⟨w0, hw0⟩ := Option.isSome_iff_exists.mp hn0
  obtain ⟨n1, hn1⟩ := hready
    (spi_delay_func d W25Q_DELAY_TIME
      (spi_send d [W25Q_SECTOR_ERASE, (address >>> 16) &&& 0xff, (address >>> 8) &&& 0xf0, 0] 4
        (spi_delay_func d W25Q_DELAY_TIME (w25q_write_enable d w0))).1)
  obtain ⟨w1, hw1⟩ := Option.isSome_iff_exists.mp hn1
  obtain ⟨⟨k0, -, hb0⟩, hc0⟩ := wait_bus d n0 w w0 hw0
  obtain ⟨⟨k1, -, hb1⟩, hc1⟩ := wait_bus d n1 _ w1 hw1
  refine ⟨max n0 n1, w1, k0, k1, ?_, ?_, ?_⟩
  · intro fuel hfuel
    unfold w25q_sector_erase
    simp only [ge_iff_le, Nat.not_le.mpr hsec, if_false]
    rw [wait_mono d n0 w w0 hw0 fuel (le_trans (le_max_left _ _) hfuel)]
    simp only []
    rw [wait_mono d n1 _ w1 hw1 fuel (le_trans (le_max_right _ _) hfuel)]
  · rw [hb1]
    simp [spi_delay_func, spi_send, (write_enable_bus d w0).1, hb0, frameTrace, cmdTrace,
      W25Q_DELAY_TIME, W25Q_SECTOR_ERASE]
  · rw [hc1]
    simp [spi_delay_func, spi_send, (write_enable_bus d w0).2, hc0]


/-- A handle found by the model-check loop carries an id of the table and the
capacity the loop reached by doubling. -/
theorem mount_scan_some (flash : Flash) (part_data : List Nat) (fuel : Nat) :
    ∀ (id size : Nat) (f : Flash),
      w25q_mount_scan flash part_data fuel id size = some (some f) →
      ∃ j, id + j ≤ W25Q512_ID ∧ f.model = id + j ∧ f.size = size * 2 ^ j := by
  induction fuel with
  | zero => intro id size f h; simp [w25q_mount_scan] at h
  | succ fuel ih =>
    intro id size f h
    simp only [w25q_mount_scan] at h
    split_ifs at h with h1 h2
    · simp only [Option.some.injEq] at h
      subst h
      exact ⟨0, by omega, rfl, by simp⟩
    · obtain ⟨j, hj, hm, hs⟩ := ih _ _ _ h
      exact ⟨j + 1, by omega, by omega, by rw [hs, pow_succ]; ring⟩
    · simp at h

/-- A handle populated by a successful mount has one of the ten capacities
`512 * 2^k`, `k < 10`. -/
theorem mount_some_size {σ : Type} (d : Device σ) (fuel : Nat) (flash f : Flash)
    (w w1 : World σ) (hm : w25q_mount d fuel flash w = some (w1, some f)) :
    ∃ k, k < 10 ∧ f.model = W25Q10_ID + k ∧ f.size = W25Q10_SIZE * 2 ^ k := by
  unfold w25q_mount at hm
  simp only [] at hm
  split_ifs at hm with h1
  · simp at hm
  · split at hm
    · simp at hm
    · rename_i res hres
      simp only [Option.some.injEq, Prod.mk.injEq] at hm
      rw [hm.2] at hres
      obtain ⟨j, hj, hmod, hs⟩ := mount_scan_some _ _ _ _ _ _ hres
      refine ⟨j, ?_, hmod, hs⟩
      simp only [W25Q10_ID, W25Q512_ID, W25Q256_ID, W25Q128_ID,
        W25Q64_ID, W25Q32_ID, W25Q16_ID, W25Q80_ID, W25Q40_ID, W25Q20_ID] at hj
      omega

theorem mount_some_size_bounds {σ : Type} (d : Device σ) (fuel : Nat) (flash f : Flash)
    (w w1 : World σ) (hm : w25q_mount d fuel flash w = some (w1, some f)) :
    512 ≤ f.size ∧ f.size ≤ 262144 := by
  obtain ⟨k, hk, -, hs⟩ := mount_some_size d fuel flash f w w1 hm
  rw [hs]
  interval_cases k <;> decide

/-- The erase loop on a device that eventually reports ready: with the end
inside the capacity it runs `⌈(end - start) / 4096⌉` times and every run sends
one sector-erase frame. -/
theorem erase_loop_total {σ : Type} (d : Device σ) (hready : Ready d) (flash : Flash)
    (end_address : Nat) (hend : end_address + 4096 ≤ UINT) (hsize : 0 < flash.size)
    (hcap : end_address / 256 ≤ flash.size) (r : Nat) :
    ∀ (start_address : Nat) (w : World σ),
      (end_address - start_address + 4095) / 4096 = r →
      ∃ N w1 evs,
        (∀ fuel n, N ≤ fuel → r < n →
          w25q_erase_loop d fuel flash end_address n start_address w = some w1) ∧
        w1.bus = w.bus ++ evs ∧ w1.calls = w.calls ∧
        opcodeCount W25Q_SECTOR_ERASE evs = r ∧
        opcodeCount W25Q_WRITE_DISABLE evs = 0 := by
  induction r with
  | zero =>
    intro start_address w hr
    refine ⟨0, w, [], ?_, by simp, rfl, rfl, rfl⟩
    intro fuel n _ hn
    obtain ⟨n, rfl⟩ : ∃ k, n = k + 1 := ⟨n - 1, by omega⟩
    simp only [w25q_erase_loop]
    rw [if_neg (by omega)]
  | succ r ih =>
    intro start_address w hr
    have hlt : start_address < end_address := by omega
    have hsec : (start_address >>> 12) &&& 0xfffff < flash.size := by
      rw [sector_num_eq start_address (by unfold UINT at *; omega)]
      omega
    obtain ⟨N0, w0, k0, k1, hse, hb0, hc0⟩ :=
      sector_erase_total d hready flash start_address w hsec
    have hnext : (start_address + 4096) % UINT = start_address + 4096 :=
      Nat.mod_eq_of_lt (by omega)
    obtain ⟨N1, w1, evs, hloop, hb1, hc1, hcnt, hwd⟩ :=
      ih (start_address + 4096) w0 (by omega)
    refine ⟨max N0 N1, w1,
      (waitTrace k0 ++ cmdTrace 0x06 ++
        frameTrace 4 [0x20, (start_address >>> 16) &&& 0xff,
          (start_address >>> 8) &&& 0xf0, 0] ++ waitTrace k1) ++ evs,
      ?_, ?_, by rw [hc1, hc0], ?_, ?_⟩
    · intro fuel n hfuel hn
      obtain ⟨n, rfl⟩ : ∃ k, n = k + 1 := ⟨n - 1, by omega⟩
      simp only [w25q_erase_loop]
      rw [if_pos hlt, hse fuel (le_trans (le_max_left _ _) hfuel)]
      simp only [hnext]
      exact hloop fuel n (le_trans (le_max_right _ _) hfuel) (by omega)
    · rw [hb1, hb0, List.append_assoc]
    · simp only [opcodeCount_append, hcnt, opcodeCount_cmdTrace, opcodeCount_frameTrace,
        opcodeCount_waitTrace W25Q_SECTOR_ERASE (by decide) (by decide)]
      simp [W25Q_SECTOR_ERASE]
      omega
    · simp only [opcodeCount_append, hwd, opcodeCount_cmdTrace, opcodeCount_frameTrace,
        opcodeCount_waitTrace W25Q_WRITE_DISABLE (by decide) (by decide)]
      simp [W25Q_WRITE_DISABLE]

/-- C10: for a handle populated by a successful mount and `start < end` with
the end within the capacity, on a device that eventually reports ready,
`w25q_erase` returns 1 and the bus trace it adds holds exactly
`⌈(end - start) / 4096⌉` sector-erase commands, one per loop iteration: no
call of `w25q_sector_erase` is rejected. -/
theorem erase_sector_erase_count {σ : Type} (d : Device σ) (hready : Ready d)
    (fuel0 : Nat) (flash0 f : Flash) (v v1 : World σ)
    (hm : w25q_mount d fuel0 flash0 v = some (v1, some f))
    (start_address end_address : Nat) (w : World σ)
    (hlt : start_address < end_address) (hcap : end_address ≤ 256 * f.size) :
    ∃ N w1 evs,
      (∀ fuel, N ≤ fuel →
        w25q_erase d fuel f start_address end_address w = some (w1, 1)) ∧
      w1.bus = w.bus ++ evs ∧
      opcodeCount W25Q_SECTOR_ERASE evs = (end_address - start_address + 4095) / 4096 := by
  have hsz := mount_some_size_bounds d fuel0 flash0 f v v1 hm
  have hend : end_address + 4096 ≤ UINT := by unfold UINT; omega
  have hpage : end_address / 256 ≤ f.size := by omega
  obtain ⟨N, w1, evs, hloop, hb, -, hcnt, -⟩ :=
    erase_loop_total d hready f end_address hend (by omega) hpage _ start_address w rfl
  refine ⟨max N ((end_address - start_address + 4095) / 4096 + 1), w1, evs, ?_, hb, hcnt⟩
  intro fuel hfuel
  unfold w25q_erase
  rw [if_neg (by omega), shr8, if_neg (by omega)]
  rw [hloop fuel fuel (le_trans (le_max_left _ _) hfuel)
    (lt_of_lt_of_le (Nat.lt_succ_self _) (le_trans (le_max_right _ _) hfuel))]

/-- Witness of `erase_sector_erase_count`: the example's erase of the first
sector, `w25q_erase(&flash, 0, 4095)`, on the simulated chip after its mount. -/
theorem erase_sector_erase_count_witness :
    ∃ N w1 evs,
      (∀ fuel, N ≤ fuel →
        w25q_erase simDevice fuel { model := W25Q16_ID, size := 8192 } 0 4095
          (World.init SimFlash.erased) = some (w1, 1)) ∧
      w1.bus = (World.init SimFlash.erased).bus ++ evs ∧
      opcodeCount W25Q_SECTOR_ERASE evs = (4095 - 0 + 4095) / 4096 :=
  erase_sector_erase_count simDevice simDevice_ready 11 { model := 0, size := 0 }
    { model := W25Q16_ID, size := 8192 } (World.init SimFlash.erased)
    (w25q_read_jedec simDevice (List.replicate 4 0) (World.init SimFlash.erased)).1
    (by rfl) 0 4095 (World.init SimFlash.erased) (by decide) (by decide)


/-- C9, at the failing input: on the simulated chip, `w25q_sector_erase` and
`w25q_64k_blk_erase` at address 0 return 1 with the bus trace
poll, write enable, erase frame, poll: one write enable precedes the erase
command and no write disable follows it.  The sibling `w25q_erase_all` does
send the write disable after its command. -/
theorem erase_primitives_omit_write_disable :
    (w25q_sector_erase simDevice 1 { model := W25Q16_ID, size := 8192 } 0
        (World.init SimFlash.erased)).map (fun r => (r.1.bus, r.2)) =
      some (pollTrace ++ cmdTrace W25Q_WRITE_ENABLE ++
        frameTrace 4 [W25Q_SECTOR_ERASE, 0, 0, 0] ++ pollTrace, 1) ∧
    (w25q_64k_blk_erase simDevice 1 { model := W25Q16_ID, size := 8192 } 0
        (World.init SimFlash.erased)).map (fun r => (r.1.bus, r.2)) =
      some (pollTrace ++ cmdTrace W25Q_WRITE_ENABLE ++
        frameTrace 4 [W25Q_64K_BLK_ERASE, 0, 0, 0] ++ pollTrace, 1) ∧
    opcodeCount W25Q_WRITE_DISABLE (pollTrace ++ cmdTrace W25Q_WRITE_ENABLE ++
        frameTrace 4 [W25Q_SECTOR_ERASE, 0, 0, 0] ++ pollTrace) = 0 ∧
    opcodeCount W25Q_WRITE_DISABLE (pollTrace ++ cmdTrace W25Q_WRITE_ENABLE ++
        frameTrace 4 [W25Q_64K_BLK_ERASE, 0, 0, 0] ++ pollTrace) = 0 ∧
    (w25q_erase_all simDevice 1 (some { model := W25Q16_ID, size := 8192 })
        (World.init SimFlash.erased)).map (fun r => (r.1.bus, r.2)) =
      some (cmdTrace W25Q_WRITE_ENABLE ++ pollTrace ++
        frameTrace 1 [W25Q_CHIP_ERASE] ++ pollTrace ++ cmdTrace W25Q_WRITE_DISABLE, 1) := by
  decide


/-! ## Write -/

theorem with_header_length (op a : Nat) (buf : List Nat) :
    (with_header op a buf).length = buf.length := by
  simp [with_header]

theorem with_header_drop (op a : Nat) (buf : List Nat) :
    (with_header op a buf).drop 4 = buf.drop 4 := by
  unfold with_header
  rw [List.drop_set_of_lt _ _ (by decide), List.drop_set_of_lt _ _ (by decide),
    List.drop_set_of_lt _ _ (by decide), List.drop_set_of_lt _ _ (by decide)]

theorem memcpy_length (dst src : List Nat) (off : Nat) (h : off + src.length ≤ dst.length) :
    (memcpy dst off src).length = dst.length := by
  simp [memcpy]
  omega

/-- The bytes a page program sends after the header are the first bytes of the
chunk copied behind the header. -/
theorem header_payload (op a n : Nat) (tb chunk : List Nat) (h4 : 4 ≤ tb.length)
    (hn : n ≤ chunk.length) :
    ((with_header op a (memcpy tb 4 chunk)).take (n + 4)).drop 4 = chunk.take n := by
  rw [List.drop_take, with_header_drop]
  have e : n + 4 - 4 = n := by omega
  rw [e]
  unfold memcpy
  rw [List.append_assoc, List.drop_left' (by simp; omega), List.take_append_of_le_length hn]

/-- The write loop on a device that eventually reports ready: from offset
`programmed_bytes` it ends and its page-program calls cover the rest of the
buffer. -/
theorem write_loop_total {σ : Type} (d : Device σ) (hready : Ready d) (address : Nat)
    (buf : List Nat) (buffer_size : Nat) (hno : address + buffer_size < UINT)
    (hlen : buffer_size ≤ buf.length) (r : Nat) :
    ∀ (programmed_bytes : Nat) (temp_buf : List Nat) (w : World σ),
      buffer_size - programmed_bytes = r → programmed_bytes ≤ buffer_size →
      temp_buf.length = 265 →
      ∃ N w1 cs,
        (∀ fuel n, N ≤ fuel → r < n →
          w25q_write_loop d fuel address buf buffer_size n programmed_bytes temp_buf w =
            some w1) ∧
        w1.calls = w.calls ++ cs ∧
        SuccessiveFrom (address + programmed_bytes) cs ∧
        (cs.map (fun c => c.returned)).sum = buffer_size - programmed_bytes ∧
        (cs.map (fun c => c.payload)).flatten =
          (buf.drop programmed_bytes).take (buffer_size - programmed_bytes) := by
  induction r using Nat.strong_induction_on with
  | _ r ih =>
    intro p tb w hr hp htb
    by_cases hlt : p < buffer_size
    · -- one more page program
      obtain ⟨limit, hlimit⟩ : ∃ limit, limit =
          (if buffer_size - p ≤ 256 then buffer_size - p else 256) := ⟨_, rfl⟩
      have hl1 : 1 ≤ limit := by rw [hlimit]; split_ifs <;> omega
      have hl2 : limit ≤ 256 := by rw [hlimit]; split_ifs <;> omega
      have hl3 : limit ≤ buffer_size - p := by rw [hlimit]; split_ifs <;> omega
      have hchunk : ((buf.drop p).take limit).length = limit := by
        simp only [List.length_take, List.length_drop]
        omega
      have htb1 : (memcpy tb 4 ((buf.drop p).take limit)).length = 265 := by
        rw [memcpy_length _ _ _ (by rw [hchunk]; omega), htb]
      have hbs : limit + 4 < UINT := by unfold UINT; omega
      have haddr : (address + p) % UINT = address + p := Nat.mod_eq_of_lt (by omega)
      have hsize : (limit + 4) % UINT = limit + 4 := Nat.mod_eq_of_lt hbs
      obtain ⟨n0, hn0⟩ := hready w
      obtain ⟨w0, hw0⟩ := Option.isSome_iff_exists.mp hn0
      obtain ⟨wa, tb2, hpp, -, hcalls, htb2⟩ :=
        page_program_spec d n0 (address + p) (memcpy tb 4 ((buf.drop p).take limit))
          (limit + 4) w w0 hbs hw0
      have hpl := page_program_limit_eq (address + p) (limit + 4) hbs
      have hmod : (address + p) % 256 < 256 := Nat.mod_lt _ (by decide)
      obtain ⟨ret, hret⟩ : ∃ ret, ret = page_program_limit (address + p) (limit + 4) - 4 :=
        ⟨_, rfl⟩
      have hplim : page_program_limit (address + p) (limit + 4) = ret + 4 := by
        rw [hret, hpl]; split_ifs <;> omega
      have hr1 : 1 ≤ ret := by rw [hret, hpl]; split_ifs <;> omega
      have hr2 : ret ≤ limit := by rw [hret, hpl]; split_ifs <;> omega
      rw [hplim] at hcalls htb2 hpp
      have e4 : ret + 4 - 4 = ret := by omega
      rw [e4] at hcalls hpp
      rw [header_payload _ _ ret tb _ (by omega) (by rw [hchunk]; exact hr2),
        List.take_take, min_eq_left hr2] at hcalls
      have htb2' : tb2.length = 265 := by rw [htb2 (by omega), htb1]
      have hnext : (p + ret) % UINT = p + ret := Nat.mod_eq_of_lt (by omega)
      obtain ⟨N1, w1, cs, hloop, hc1, hsucc, hsum, hflat⟩ :=
        ih (buffer_size - (p + ret)) (by omega) (p + ret) tb2 wa rfl (by omega) htb2'
      refine ⟨max n0 N1, w1,
        { address := address + p, buffer_size := limit + 4,
          payload := (buf.drop p).take ret, returned := ret } :: cs, ?_, ?_, ?_, ?_, ?_⟩
      · intro fuel n hfuel hn
        obtain ⟨n, rfl⟩ : ∃ k, n = k + 1 := ⟨n - 1, by omega⟩
        have hw := wait_mono d n0 w w0 hw0 fuel (le_trans (le_max_left _ _) hfuel)
        simp only [w25q_write_loop]
        rw [if_pos hlt, ← hlimit, haddr, hsize,
          page_program_fuel d n0 fuel _ _ _ w w0 hw0 hw, hpp]
        simp only [hnext]
        exact hloop fuel n (le_trans (le_max_right _ _) hfuel) (by omega)
      · rw [hc1, hcalls, List.append_assoc, List.singleton_append]
      · refine ⟨rfl, hr1, ?_⟩
        have e : address + p + ret = address + (p + ret) := by omega
        simp only [e]
        exact hsucc
      · simp only [List.map_cons, List.sum_cons, hsum]
        omega
      · simp only [List.map_cons, List.flatten_cons, hflat]
        have e : buffer_size - p = ret + (buffer_size - (p + ret)) := by omega
        rw [e, List.take_add, List.drop_drop]
    · -- nothing left
      have hp' : p = buffer_size := by omega
      refine ⟨0, w, [], ?_, by simp, trivial, by simp; omega, ?_⟩
      · intro fuel n _ hn
        obtain ⟨n, rfl⟩ : ∃ k, n = k + 1 := ⟨n - 1, by omega⟩
        simp only [w25q_write_loop]
        rw [if_neg hlt]
      · have e : buffer_size - p = 0 := by omega
        rw [e]
        simp


/-- C1: for every handle, address, present buffer of at least `length` bytes
and `length` that `w25q_check_param` accepts, with `address + length` not
overflowing 32 bits, on a device that eventually reports ready, `w25q_write`
returns 1, and the page-program calls `cs` it makes are successive from
`address` (first call at `address`, every returned count at least 1, each next
call at the previous address plus the previous count), their counts sum to
`length` and their payloads, concatenated in order, are `buffer[0..length)`. -/
theorem write_programs_buffer {σ : Type} (d : Device σ) (hready : Ready d)
    (flash : Option Flash) (address : Nat) (buf : List Nat) (length : Nat) (w : World σ)
    (hno : address + length < UINT) (hlen : length ≤ buf.length)
    (hv : w25q_check_param flash address (some buf) length = 1) :
    ∃ N w1 cs,
      (∀ fuel, N ≤ fuel →
        w25q_write d fuel flash address (some buf) length w = some (w1, 1)) ∧
      w1.calls = w.calls ++ cs ∧
      SuccessiveFrom address cs ∧
      (cs.map (fun c => c.returned)).sum = length ∧
      (cs.map (fun c => c.payload)).flatten = buf.take length := by
  obtain ⟨N, w1, cs, hloop, hcalls, hsucc, hsum, hflat⟩ :=
    write_loop_total d hready address buf length hno hlen length 0 (List.replicate 265 0) w
      rfl (Nat.zero_le _) (List.length_replicate _ _)
  refine ⟨max N (length + 1), w1, cs, ?_, hcalls, hsucc, hsum, hflat⟩
  intro fuel hfuel
  unfold w25q_write
  rw [hv, if_neg (by decide)]
  simp only []
  rw [hloop fuel fuel (le_trans (le_max_left _ _) hfuel)
    (lt_of_lt_of_le (Nat.lt_succ_self _) (le_trans (le_max_right _ _) hfuel))]

/-- Witness of `write_programs_buffer`: 20 bytes written at address 250 of the
simulated chip, a write that crosses the page boundary at 256. -/
theorem write_programs_buffer_witness :
    ∃ N w1 cs,
      (∀ fuel, N ≤ fuel →
        w25q_write simDevice fuel (some { model := W25Q16_ID, size := 8192 }) 250
          (some (List.range 20)) 20 (World.init SimFlash.erased) = some (w1, 1)) ∧
      w1.calls = (World.init SimFlash.erased).calls ++ cs ∧
      SuccessiveFrom 250 cs ∧
      (cs.map (fun c => c.returned)).sum = 20 ∧
      (cs.map (fun c => c.payload)).flatten = (List.range 20).take 20 :=
  write_programs_buffer simDevice simDevice_ready (some { model := W25Q16_ID, size := 8192 })
    250 (List.range 20) 20 (World.init SimFlash.erased) (by decide) (by decide) (by decide)


/-! ## Write then read on the simulated chip -/

theorem sim_wait (fuel : Nat) (hf : 1 ≤ fuel) (w : World SimFlash) :
    ∃ w0, w25q_wait_until_available simDevice fuel w = some w0 ∧ w0.dev = w.dev := by
  obtain ⟨n, rfl⟩ : ∃ k, fuel = k + 1 := ⟨fuel - 1, by omega⟩
  have h2 : List.range 2 = [0, 1] := rfl
  refine ⟨(w25q_read_status_regs simDevice (List.replicate 3 0) w).1, ?_, ?_⟩
  · simp only [w25q_wait_until_available]
    rw [if_pos]
    simp [w25q_read_status_regs, spi_send, spi_delay_func,
      set_dummy_bytes, simDevice, SimFlash.transfer, W25Q_DELAY_TIME, W25Q_READ_STATUS_REG_1,
      W25Q_READ_STATUS_REG_2, W25Q_READ_JEDEC_ID, h2]
  · simp [w25q_read_status_regs, spi_send, spi_delay_func,
      set_dummy_bytes, simDevice, SimFlash.transfer, W25Q_DELAY_TIME, W25Q_READ_STATUS_REG_1,
      W25Q_READ_STATUS_REG_2, W25Q_READ_JEDEC_ID, h2]

theorem sim_write_enable (w : World SimFlash) : (w25q_write_enable simDevice w).dev = w.dev := by
  simp [w25q_write_enable, spi_send, spi_delay_func, simDevice, SimFlash.transfer,
    W25Q_WRITE_ENABLE, W25Q_READ_STATUS_REG_1, W25Q_READ_STATUS_REG_2, W25Q_READ_JEDEC_ID,
    W25Q_PAGE_PROGRAM, W25Q_READ_DATA]

theorem sim_write_disable (w : World SimFlash) :
    (w25q_write_disable simDevice w).dev = w.dev := by
  simp [w25q_write_disable, spi_send, spi_delay_func, simDevice, SimFlash.transfer,
    W25Q_WRITE_DISABLE, W25Q_READ_STATUS_REG_1, W25Q_READ_STATUS_REG_2, W25Q_READ_JEDEC_ID,
    W25Q_PAGE_PROGRAM, W25Q_READ_DATA]

theorem sim_delay (t : Nat) (w : World SimFlash) : (spi_delay_func simDevice t w).dev = w.dev := rfl

theorem sim_send_dev (buf : List Nat) (size : Nat) (w : World SimFlash) :
    (spi_send simDevice buf size w).1.dev = (SimFlash.transfer w.dev (buf.take size)).1 := rfl

theorem page_program_dev {σ : Type} (d : Device σ) (fuel address : Nat) (buffer : List Nat)
    (buffer_size : Nat) (w w0 : World σ) (hs : buffer_size < UINT)
    (hw : w25q_wait_until_available d fuel w = some w0) :
    ∃ w1 buf1, w25q_page_program d fuel address buffer buffer_size w =
        some (w1, buf1, page_program_limit address buffer_size - 4) ∧
      w1.dev = (w25q_write_disable d (spi_delay_func d W25Q_DELAY_TIME
        (spi_send d (with_header 0x02 address buffer) (page_program_limit address buffer_size)
          (spi_delay_func d W25Q_DELAY_TIME (w25q_write_enable d w0))).1)).dev ∧
      (page_program_limit address buffer_size ≤ buffer.length →
        buf1.length = buffer.length) := by
  unfold w25q_page_program
  rw [hw]
  simp only [page_program_ret_eq address buffer_size hs]
  refine ⟨_, _, rfl, ?_, ?_⟩
  · rfl
  · intro hle
    simp [spi_send, hle]

theorem with_header_getD (op a : Nat) (buf : List Nat) (n dflt : Nat) (h4 : 4 ≤ buf.length)
    (hn : 4 ≤ n) :
    ((with_header op a buf).take n).getD 0 dflt = op ∧
    ((with_header op a buf).take n).getD 1 dflt = (a >>> 16) &&& 0xff ∧
    ((with_header op a buf).take n).getD 2 dflt = (a >>> 8) &&& 0xff ∧
    ((with_header op a buf).take n).getD 3 dflt = a &&& 0xff := by
  simp only [with_header, List.getD_eq_getElem?_getD, List.getElem?_take, List.getElem?_set,
    List.length_set]
  have e0 : 0 < n := by omega
  have e1 : 1 < n := by omega
  have e2 : 2 < n := by omega
  have e3 : 3 < n := by omega
  have f0 : 0 < buf.length := by omega
  have f1 : 1 < buf.length := by omega
  have f2 : 2 < buf.length := by omega
  have f3 : 3 < buf.length := by omega
  simp [e0, e1, e2, e3, f0, f1, f2, f3]

/-- The frame address of a frame built by the header assignments is the
address modulo `2^24`. -/
theorem frame_address_with_header (op a : Nat) (buf : List Nat) (n : Nat) (h4 : 4 ≤ buf.length)
    (hn : 4 ≤ n) :
    frame_address ((with_header op a buf).take n) = a % 16777216 := by
  obtain ⟨-, h1, h2, h3⟩ := with_header_getD op a buf n 0 h4 hn
  unfold frame_address
  rw [h1, h2, h3, and_ff, and_ff, and_ff, shr8, shr16]
  omega

theorem sim_transfer_program (s : SimFlash) (frame : List Nat)
    (h0 : frame.getD 0 0xff = W25Q_PAGE_PROGRAM) (x : Nat) :
    (SimFlash.transfer s frame).1.mem x =
      if frame_address frame ≤ x ∧ x < frame_address frame + (frame.length - 4) then
        s.mem x &&& frame.getD (4 + (x - frame_address frame)) 0xff
      else s.mem x := by
  unfold SimFlash.transfer
  rw [h0, if_neg (by decide), if_neg (by decide), if_neg (by decide), if_pos rfl]

theorem sim_transfer_read (s : SimFlash) (frame : List Nat)
    (h0 : frame.getD 0 0xff = W25Q_READ_DATA) :
    SimFlash.transfer s frame = (s, List.replicate 4 0xff ++
      (List.range (frame.length - 4)).map (fun i => s.mem (frame_address frame + i))) := by
  unfold SimFlash.transfer
  rw [h0, if_neg (by decide), if_neg (by decide), if_neg (by decide), if_neg (by decide),
    if_pos rfl]

theorem getD_drop4 (l : List Nat) (i dflt : Nat) :
    l.getD (4 + i) dflt = (l.drop 4).getD i dflt := by
  simp [List.getD_eq_getElem?_getD, List.getElem?_drop]

theorem getD_drop_take (l : List Nat) (p n i dflt : Nat) (hi : i < n) :
    ((l.drop p).take n).getD i dflt = l.getD (p + i) dflt := by
  simp [List.getD_eq_getElem?_getD, List.getElem?_drop, List.getElem?_take, hi]

/-- The write loop on the simulated chip: it ends, and it has programmed
`buf[programmed_bytes .. buffer_size)` at `address + programmed_bytes`, provided
the range lies in the 24-bit address space of the frames. -/
theorem sim_write_loop (address : Nat) (buf : List Nat) (buffer_size : Nat)
    (h24 : address + buffer_size ≤ 16777216) (hlen : buffer_size ≤ buf.length) (r : Nat) :
    ∀ (programmed_bytes : Nat) (temp_buf : List Nat) (w : World SimFlash),
      buffer_size - programmed_bytes = r → programmed_bytes ≤ buffer_size →
      temp_buf.length = 265 →
      ∃ w1,
        (∀ fuel n, 1 ≤ fuel → r < n →
          w25q_write_loop simDevice fuel address buf buffer_size n programmed_bytes temp_buf w =
            some w1) ∧
        ∀ x, w1.dev.mem x =
          if address + programmed_bytes ≤ x ∧ x < address + buffer_size then
            w.dev.mem x &&& buf.getD (x - address) 0xff
          else w.dev.mem x := by
  induction r using Nat.strong_induction_on with
  | _ r ih =>
    intro p tb w hr hp htb
    by_cases hlt : p < buffer_size
    · obtain ⟨limit, hlimit⟩ : ∃ limit, limit =
          (if buffer_size - p ≤ 256 then buffer_size - p else 256) := ⟨_, rfl⟩
      have hl1 : 1 ≤ limit := by rw [hlimit]; split_ifs <;> omega
      have hl2 : limit ≤ 256 := by rw [hlimit]; split_ifs <;> omega
      have hl3 : limit ≤ buffer_size - p := by rw [hlimit]; split_ifs <;> omega
      have hchunk : ((buf.drop p).take limit).length = limit := by
        simp only [List.length_take, List.length_drop]
        omega
      have htb1 : (memcpy tb 4 ((buf.drop p).take limit)).length = 265 := by
        rw [memcpy_length _ _ _ (by rw [hchunk]; omega), htb]
      have hbs : limit + 4 < UINT := by unfold UINT; omega
      have haddr : (address + p) % UINT = address + p :=
        Nat.mod_eq_of_lt (by unfold UINT; omega)
      have hsize : (limit + 4) % UINT = limit + 4 := Nat.mod_eq_of_lt hbs
      obtain ⟨w0, hw0, hd0⟩ := sim_wait 1 (le_refl 1) w
      obtain ⟨wa, tb2, hpp, hdev, htb2⟩ :=
        page_program_dev simDevice 1 (address + p) (memcpy tb 4 ((buf.drop p).take limit))
          (limit + 4) w w0 hbs hw0
      have hpl := page_program_limit_eq (address + p) (limit + 4) hbs
      have hmod : (address + p) % 256 < 256 := Nat.mod_lt _ (by decide)
      obtain ⟨ret, hret⟩ : ∃ ret, ret = page_program_limit (address + p) (limit + 4) - 4 :=
        ⟨_, rfl⟩
      have hplim : page_program_limit (address + p) (limit + 4) = ret + 4 := by
        rw [hret, hpl]; split_ifs <;> omega
      have hr1 : 1 ≤ ret := by rw [hret, hpl]; split_ifs <;> omega
      have hr2 : ret ≤ limit := by rw [hret, hpl]; split_ifs <;> omega
      rw [hplim] at hdev htb2 hpp
      have e4 : ret + 4 - 4 = ret := by omega
      rw [e4] at hpp
      have htb2' : tb2.length = 265 := by rw [htb2 (by omega), htb1]
      have hnext : (p + ret) % UINT = p + ret := Nat.mod_eq_of_lt (by unfold UINT; omega)
      -- the chip after the page program
      rw [sim_write_disable, sim_delay, sim_send_dev, sim_delay, sim_write_enable, hd0] at hdev
      have hframe0 := (with_header_getD 0x02 (address + p)
        (memcpy tb 4 ((buf.drop p).take limit)) (ret + 4) 0xff (by omega) (by omega)).1
      have hfa := frame_address_with_header 0x02 (address + p)
        (memcpy tb 4 ((buf.drop p).take limit)) (ret + 4) (by omega) (by omega)
      rw [Nat.mod_eq_of_lt (by omega)] at hfa
      have hflen : ((with_header 0x02 (address + p)
          (memcpy tb 4 ((buf.drop p).take limit))).take (ret + 4)).length = ret + 4 := by
        rw [List.length_take, with_header_length, htb1]
        omega
      have hmem : ∀ x, wa.dev.mem x =
          if address + p ≤ x ∧ x < address + p + ret then
            w.dev.mem x &&& buf.getD (x - address) 0xff
          else w.dev.mem x := by
        intro x
        rw [hdev, sim_transfer_program _ _ hframe0, hfa, hflen, e4]
        by_cases hx : address + p ≤ x ∧ x < address + p + ret
        · rw [if_pos hx, if_pos hx, getD_drop4,
            header_payload _ _ ret tb _ (by omega) (by rw [hchunk]; exact hr2),
            List.take_take, min_eq_left hr2, getD_drop_take _ _ _ _ _ (by omega)]
          have e : p + (x - (address + p)) = x - address := by omega
          rw [e]
        · rw [if_neg hx, if_neg hx]
      obtain ⟨w1, hloop, hmem1⟩ :=
        ih (buffer_size - (p + ret)) (by omega) (p + ret) tb2 wa rfl (by omega) htb2'
      refine ⟨w1, ?_, ?_⟩
      · intro fuel n hfuel hn
        obtain ⟨n, rfl⟩ : ∃ k, n = k + 1 := ⟨n - 1, by omega⟩
        have hw := wait_mono simDevice 1 w w0 hw0 fuel hfuel
        simp only [w25q_write_loop]
        rw [if_pos hlt, ← hlimit, haddr, hsize,
          page_program_fuel simDevice 1 fuel _ _ _ w w0 hw0 hw, hpp]
        simp only [hnext]
        exact hloop fuel n hfuel (by omega)
      · intro x
        rw [hmem1 x, hmem x]
        by_cases h1 : address + (p + ret) ≤ x ∧ x < address + buffer_size
        · rw [if_pos h1, if_neg (by omega), if_pos (by omega)]
        · rw [if_neg h1]
          by_cases h2 : address + p ≤ x ∧ x < address + p + ret
          · rw [if_pos h2, if_pos (by omega)]
          · rw [if_neg h2, if_neg (by omega)]
    · refine ⟨w, ?_, ?_⟩
      · intro fuel n _ hn
        obtain ⟨n, rfl⟩ : ∃ k, n = k + 1 := ⟨n - 1, by omega⟩
        simp only [w25q_write_loop]
        rw [if_neg hlt]
      · intro x
        rw [if_neg (by omega)]

/-- A read of `n + 4` bytes on the simulated chip returns, behind the four
header positions, the `n` stored bytes from the address onwards. -/
theorem sim_read (flash : Option Flash) (address n : Nat) (buf0 : List Nat)
    (w : World SimFlash) (hbuf : n + 4 ≤ buf0.length)
    (hv : w25q_check_param flash address (some buf0) (n + 4) = 1) :
    ∃ w2 buf1, w25q_read simDevice flash address (some buf0) (n + 4) w = (w2, some buf1, 1) ∧
      (address < 16777216 →
        (buf1.drop 4).take n = (List.range n).map (fun i => w.dev.mem (address + i))) := by
  unfold w25q_read
  rw [hv, if_neg (by decide)]
  refine ⟨_, _, rfl, ?_⟩
  intro h24
  show (((spi_send simDevice (with_header 0x03 address buf0) (n + 4) w).2).drop 4).take n = _
  have hframe0 := (with_header_getD 0x03 address buf0 (n + 4) 0xff (by omega) (by omega)).1
  have hfa := frame_address_with_header 0x03 address buf0 (n + 4) (by omega) (by omega)
  rw [Nat.mod_eq_of_lt h24] at hfa
  have hflen : ((with_header 0x03 address buf0).take (n + 4)).length = n + 4 := by
    rw [List.length_take, with_header_length]
    omega
  unfold spi_send
  simp only [simDevice]
  rw [sim_transfer_read _ _ hframe0, hfa, hflen]
  apply List.ext_getElem
  · simp
    omega
  · intro i h1 h2
    simp only [List.length_map, List.length_range] at h2
    simp only [List.getElem_take, List.getElem_drop, List.getElem_map, List.getElem_range]
    rw [List.getElem_append_left (by simp; omega)]
    simp only [List.getElem_map, List.getElem_range, List.getD_eq_getElem?_getD]
    rw [List.getElem?_append_right (by simp)]
    simp [h2]

theorem and_ff_byte (b : Nat) (hb : b < 256) : 0xff &&& b = b := by
  rw [Nat.and_comm, and_ff, Nat.mod_eq_of_lt hb]

/-- C3, as stated, fails: a handle identified as `W25Q256_ID` (131072 pages),
16 bytes at address `2^24 - 8`.  The validator accepts the write and the read,
both return 1, but the second page program carries the 24-bit frame address 0,
so the bytes read back at offsets 12..20 are erased (`0xff`), not the data. -/
theorem write_read_mismatch_past_24_bits :
    (w25q_mount (idDevice 0xef 0x40 0x19) 11 { model := 0, size := 0 } (World.init ())).map
        (fun r => r.2) = some (some { model := W25Q256_ID, size := 131072 }) ∧
      w25q_check_param (some { model := W25Q256_ID, size := 131072 }) 16777208
        (some (List.range 16)) 16 = 1 ∧
      w25q_check_param (some { model := W25Q256_ID, size := 131072 }) 16777208
        (some (List.replicate 20 0)) 20 = 1 ∧
      (w25q_write simDevice 3 (some { model := W25Q256_ID, size := 131072 }) 16777208
          (some (List.range 16)) 16 (World.init SimFlash.erased)).map
        (fun r => (r.2, ((w25q_read simDevice (some { model := W25Q256_ID, size := 131072 })
          16777208 (some (List.replicate 20 0)) 20 r.1).2.1.map
            (fun b => (b.drop 4).take 16),
          (w25q_read simDevice (some { model := W25Q256_ID, size := 131072 })
          16777208 (some (List.replicate 20 0)) 20 r.1).2.2))) =
        some (1, some [0, 1, 2, 3, 4, 5, 6, 7, 255, 255, 255, 255, 255, 255, 255, 255], 1) ∧
      [0, 1, 2, 3, 4, 5, 6, 7, 255, 255, 255, 255, 255, 255, 255, 255] ≠ List.range 16 := by
  decide

/-- C3, amended: on the simulated chip, for every handle, address and data
bytes such that the validator accepts the write of `L = data.length` bytes and
the read of `L + 4` bytes into a buffer of at least `L + 4` bytes, the target
range `[address, address + L)` is erased and lies within the 24-bit frame
address space (`address + L ≤ 2^24`): `w25q_write` returns 1, the following
`w25q_read` returns 1, and `buf[4 .. L + 4)` equals the data. -/
theorem write_read_roundtrip (flash : Option Flash) (address : Nat) (data buf0 : List Nat)
    (w : World SimFlash)
    (hbytes : ∀ b ∈ data, b < 256)
    (herased : ∀ x, address ≤ x → x < address + data.length → w.dev.mem x = 0xff)
    (hbuf : data.length + 4 ≤ buf0.length)
    (h24 : address + data.length ≤ 16777216)
    (hvw : w25q_check_param flash address (some data) data.length = 1)
    (hvr : w25q_check_param flash address (some buf0) (data.length + 4) = 1) :
    ∃ N w1 w2 buf1,
      (∀ fuel, N ≤ fuel →
        w25q_write simDevice fuel flash address (some data) data.length w = some (w1, 1)) ∧
      w25q_read simDevice flash address (some buf0) (data.length + 4) w1 =
        (w2, some buf1, 1) ∧
      (buf1.drop 4).take data.length = data := by
  obtain ⟨w1, hloop, hmem⟩ :=
    sim_write_loop address data data.length h24 (le_refl _) data.length 0
      (List.replicate 265 0) w rfl (Nat.zero_le _) (List.length_replicate _ _)
  obtain ⟨w2, buf1, hread, hdata⟩ := sim_read flash address data.length buf0 w1 hbuf hvr
  refine ⟨data.length + 1, w1, w2, buf1, ?_, hread, ?_⟩
  · intro fuel hfuel
    unfold w25q_write
    rw [hvw, if_neg (by decide)]
    simp only []
    rw [hloop fuel fuel (by omega) (by omega)]
  · by_cases hz : data.length = 0
    · rw [hz, List.take_zero]
      exact (List.length_eq_zero.mp hz).symm
    rw [hdata (by omega)]
    apply List.ext_getElem
    · simp
    · intro i h1 h2
      simp only [List.getElem_map, List.getElem_range]
      rw [hmem, if_pos (by omega), herased _ (by omega) (by omega)]
      have e : address + i - address = i := by omega
      rw [e, List.getD_eq_getElem _ _ h2, and_ff_byte _ (hbytes _ (List.getElem_mem h2))]

set_option maxRecDepth 100000 in
/-- Witness of `write_read_roundtrip`: the example's pattern written at
address 0 of the erased simulated chip and read back; and the example's whole
run, 32 writes of the pattern at 0, 8, …, 248 followed by the 260-byte read
from address 0, whose bytes at offsets 4..12 are the pattern. -/
theorem write_read_roundtrip_witness :
    (∃ N w1 w2 buf1,
      (∀ fuel, N ≤ fuel →
        w25q_write simDevice fuel (some { model := W25Q16_ID, size := 8192 }) 0
          (some example_data) example_data.length (World.init SimFlash.erased) =
            some (w1, 1)) ∧
      w25q_read simDevice (some { model := W25Q16_ID, size := 8192 }) 0
          (some (List.replicate 270 0)) (example_data.length + 4) w1 = (w2, some buf1, 1) ∧
      (buf1.drop 4).take example_data.length = example_data) ∧
    (example_run simDevice 2 { model := W25Q16_ID, size := 8192 }
        (World.init SimFlash.erased)).map (fun b => (b.drop 4).take 8) = some example_data :=
  ⟨write_read_roundtrip (some { model := W25Q16_ID, size := 8192 }) 0 example_data
      (List.replicate 270 0) (World.init SimFlash.erased) (by decide) (fun _ _ _ => rfl)
      (by decide) (by decide) (by decide) (by decide),
    by decide⟩


/-! ## Ranged erase: rejected requests -/

/-- C13, as stated, fails: on a 512-page chip (131072 bytes) the request
`start = 131071`, `end = 131073` has its end past the capacity, yet
`w25q_erase` returns 1 and sends a sector-erase frame, because the end is
compared as a page number (`131073 >> 8 = 512`, not above 512). -/
theorem erase_accepts_end_past_capacity :
    131071 < 131073 ∧ 131073 > 256 * W25Q10_SIZE ∧
    (w25q_erase simDevice 2 { model := W25Q10_ID, size := W25Q10_SIZE } 131071 131073
        (World.init SimFlash.erased)).map (fun r => (r.1.bus, r.2)) =
      some (pollTrace ++ cmdTrace W25Q_WRITE_ENABLE ++
        frameTrace 4 [W25Q_SECTOR_ERASE, 0x01, 0xf0, 0] ++ pollTrace, 1) := by
  decide

/-- C13, amended: for every handle and every `start < end` whose end page
index `end >> 8` exceeds the capacity in pages (that is, `end ≥ 256 * (size +
1)`), `w25q_erase` returns 0 and leaves the world as it was: no transfer and
no delay, whatever the fuel and the device. -/
theorem erase_rejects_end_page_past_capacity {σ : Type} (d : Device σ) (fuel : Nat)
    (flash : Flash) (start_address end_address : Nat) (w : World σ)
    (hlt : start_address < end_address) (hend : flash.size < end_address / 256) :
    w25q_erase d fuel flash start_address end_address w = some (w, 0) ∧
      256 * (flash.size + 1) ≤ end_address := by
  refine ⟨?_, by omega⟩
  unfold w25q_erase
  rw [if_neg (by omega), shr8, if_pos hend]

/-- Witness of `erase_rejects_end_page_past_capacity`: end 131328 on a
512-page chip. -/
theorem erase_rejects_end_page_past_capacity_witness :
    w25q_erase simDevice 0 { model := W25Q10_ID, size := W25Q10_SIZE } 0 131328
        (World.init SimFlash.erased) = some (World.init SimFlash.erased, 0) ∧
      256 * (W25Q10_SIZE + 1) ≤ 131328 :=
  erase_rejects_end_page_past_capacity simDevice 0 { model := W25Q10_ID, size := W25Q10_SIZE }
    0 131328 (World.init SimFlash.erased) (by decide) (by decide)

/-- C14: for every handle and every `end ≤ start`, `w25q_erase` returns 0 and
leaves the world as it was: the bus trace gains no transfer and no delay,
whatever the fuel and the device. -/
theorem erase_empty_range {σ : Type} (d : Device σ) (fuel : Nat) (flash : Flash)
    (start_address end_address : Nat) (w : World σ) (hle : end_address ≤ start_address) :
    w25q_erase d fuel flash start_address end_address w = some (w, 0) := by
  unfold w25q_erase
  rw [if_pos hle]

/-- Witness of `erase_empty_range`: `start = end = 4096`. -/
theorem erase_empty_range_witness :
    w25q_erase simDevice 0 { model := W25Q16_ID, size := W25Q16_SIZE } 4096 4096
        (World.init SimFlash.erased) = some (World.init SimFlash.erased, 0) :=
  erase_empty_range simDevice 0 { model := W25Q16_ID, size := W25Q16_SIZE } 4096 4096
    (World.init SimFlash.erased) (by decide)

/-! ## Parameter errors -/

/-- C15: whenever `w25q_check_param` rejects the parameters, `w25q_read`
returns 0 with the world and the caller's buffer as they were, and
`w25q_write` returns 0 with the world as it was (it only ever reads the
caller's buffer): no transfer and no delay, whatever the fuel and the device. -/
theorem read_write_reject_without_bus {σ : Type} (d : Device σ) (fuel : Nat)
    (flash : Option Flash) (address : Nat) (buffer : Option (List Nat)) (buffer_size : Nat)
    (w : World σ) (hv : w25q_check_param flash address buffer buffer_size = 0) :
    w25q_read d flash address buffer buffer_size w = (w, buffer, 0) ∧
      w25q_write d fuel flash address buffer buffer_size w = some (w, 0) := by
  constructor
  · unfold w25q_read
    rw [if_pos hv]
  · unfold w25q_write
    rw [if_pos hv]

/-- Witness of `read_write_reject_without_bus`: a request starting at the
first byte past a 512-page chip. -/
theorem read_write_reject_without_bus_witness :
    w25q_read simDevice (some { model := W25Q10_ID, size := W25Q10_SIZE }) 131072
        (some [1, 2, 3, 4, 5]) 5 (World.init SimFlash.erased) =
        (World.init SimFlash.erased, some [1, 2, 3, 4, 5], 0) ∧
      w25q_write simDevice 0 (some { model := W25Q10_ID, size := W25Q10_SIZE }) 131072
        (some [1, 2, 3, 4, 5]) 5 (World.init SimFlash.erased) =
        some (World.init SimFlash.erased, 0) :=
  read_write_reject_without_bus simDevice 0 (some { model := W25Q10_ID, size := W25Q10_SIZE })
    131072 (some [1, 2, 3, 4, 5]) 5 (World.init SimFlash.erased) (by decide)

/-- C16, as stated, fails: with the handle set, a present but empty buffer
(length 0) and address 0, the validator returns valid. -/
theorem check_param_accepts_empty_buffer :
    w25q_check_param (some { model := W25Q10_ID, size := W25Q10_SIZE }) 0 (some []) 0 = 1 := by
  decide

/-- C16, amended: for a request whose end `address + length` does not wrap,
`w25q_check_param` returns invalid exactly when the handle is unset, or the
buffer is absent, or the start page `address / 256` is at least the capacity,
or the end page `(address + length) / 256` exceeds the capacity; in every
other case, length 0 included, it returns valid.  It is a function of its four
arguments alone: it touches neither the bus nor any state. -/
theorem check_param_invalid_iff (flash : Option Flash) (address buffer_size : Nat)
    (buffer : Option (List Nat)) (ha : address < UINT)
    (hno : address + buffer_size < UINT) :
    (w25q_check_param flash address buffer buffer_size = 0 ↔
      (flash = none ∨ buffer = none ∨
        ∃ f, flash = some f ∧
          (f.size ≤ address / 256 ∨ f.size < (address + buffer_size) / 256))) ∧
    (w25q_check_param flash address buffer buffer_size ≠ 0 →
      w25q_check_param flash address buffer buffer_size = 1) := by
  cases flash with
  | none => simp [w25q_check_param]
  | some f =>
    rw [check_param_eq f address buffer_size buffer ha, Nat.mod_eq_of_lt hno]
    cases buffer with
    | none => simp
    | some b =>
      by_cases h1 : f.size ≤ address / 256
      · simp [h1]
      · by_cases h2 : f.size < (address + buffer_size) / 256
        · simp [h1, h2]
        · simp [h1, h2]

/-- Witness of `check_param_invalid_iff`: the empty request at address 0. -/
theorem check_param_invalid_iff_witness :
    (w25q_check_param (some { model := W25Q10_ID, size := W25Q10_SIZE }) 0 (some []) 0 = 0 ↔
      ((some ({ model := W25Q10_ID, size := W25Q10_SIZE } : Flash)) = none ∨
        (some ([] : List Nat)) = none ∨
        ∃ f, some ({ model := W25Q10_ID, size := W25Q10_SIZE } : Flash) = some f ∧
          (f.size ≤ 0 / 256 ∨ f.size < (0 + 0) / 256))) ∧
    (w25q_check_param (some { model := W25Q10_ID, size := W25Q10_SIZE }) 0 (some []) 0 ≠ 0 →
      w25q_check_param (some { model := W25Q10_ID, size := W25Q10_SIZE }) 0 (some []) 0 = 1) :=
  check_param_invalid_iff (some { model := W25Q10_ID, size := W25Q10_SIZE }) 0 0 (some [])
    (by decide) (by decide)

/-! ## The set of supported ids -/

theorem idDevice_jedec (m hi lo : Nat) :
    (w25q_read_jedec (idDevice m hi lo) (List.replicate 4 0) (World.init ())).2 =
      [0xff, m, hi, lo] := by
  rfl

theorem mountSucceeds_iff (id : Nat) (hid : id < 65536) :
    mountSucceeds id = true ↔ id ∈ w25q_id_t := by
  have hmem : id ∈ w25q_id_t ↔ (id / 256 = 0x40 ∧ 0x11 ≤ id % 256 ∧ id % 256 ≤ 0x1a) := by
    simp only [w25q_id_t, W25Q10_ID, W25Q512_ID, W25Q256_ID, W25Q128_ID,
      W25Q64_ID, W25Q32_ID, W25Q16_ID, W25Q80_ID, W25Q40_ID, W25Q20_ID, List.mem_cons,
      List.mem_singleton]
    simp only [List.not_mem_nil, or_false]
    omega
  unfold mountSucceeds
  rw [mount_eq _ 11 _ _ 0xff W25Q_PRODUCER_ID (id / 256) (id % 256) (idDevice_jedec _ _ _)
    (le_refl _), hmem]
  by_cases h : id / 256 = 0x40 ∧ 0x11 ≤ id % 256 ∧ id % 256 ≤ 0x1a
  · rw [if_pos ⟨rfl, h⟩]
    simp [h]
  · rw [if_neg (fun hc => h hc.2)]
    simp [h]

theorem mountedIds_eq : mountedIds = w25q_id_t.toFinset := by
  ext id
  simp only [mountedIds, Finset.mem_filter, Finset.mem_range, List.mem_toFinset]
  constructor
  · rintro ⟨hid, hs⟩
    exact (mountSucceeds_iff id hid).mp hs
  · intro hm
    have hid : id < 65536 := by
      simp only [w25q_id_t, W25Q10_ID, W25Q512_ID, W25Q256_ID, W25Q128_ID,
        W25Q64_ID, W25Q32_ID, W25Q16_ID, W25Q80_ID, W25Q40_ID, W25Q20_ID, List.mem_cons,
        List.mem_singleton, List.not_mem_nil, or_false] at hm
      omega
    exact ⟨hid, (mountSucceeds_iff id hid).mpr hm⟩

theorem mountedIds_card : mountedIds.card = 10 := by
  rw [mountedIds_eq]
  decide

/-- C17, as stated, fails: the set of device ids on which mount succeeds does
not have nine members. -/
theorem mounted_ids_not_nine : mountedIds.card ≠ 9 := by
  rw [mountedIds_card]
  decide

/-- C17, amended: the set of device ids on which `w25q_mount` succeeds
(manufacturer byte `0xEF`) has exactly ten members, the ten enumerators
`W25Q10_ID … W25Q512_ID` of `enum w25q_id_t`. -/
theorem mounted_ids_ten : mountedIds.card = 10 ∧ mountedIds = w25q_id_t.toFinset :=
  ⟨mountedIds_card, mountedIds_eq⟩

/-! ## Page program: chunk and frame -/

/-- For a length that includes the header, the `limit` is the minimum of the
length and the rest of the page plus the header. -/
theorem page_program_limit_min (address buffer_size : Nat) (h4 : 4 ≤ buffer_size)
    (hs : buffer_size < UINT) :
    page_program_limit address buffer_size = min buffer_size (256 - address % 256 + 4) := by
  rw [page_program_limit_eq address buffer_size hs]
  have hm : address % 256 < 256 := Nat.mod_lt _ (by decide)
  split_ifs with h
  · rw [min_eq_left (by omega)]
  · rw [min_eq_right (by omega)]

/-- C18: for every address and every length of at least 4, on a device that
eventually reports ready, `w25q_page_program` hands the transfer capability
exactly `chunk = min(length, 256 - address % 256 + 4)` bytes and returns
`chunk - 4`; masking `chunk - 4` with `0x1ff` leaves it unchanged. -/
theorem page_program_chunk {σ : Type} (d : Device σ) (hready : Ready d)
    (address : Nat) (buffer : List Nat) (buffer_size : Nat) (w : World σ)
    (h4 : 4 ≤ buffer_size) (hs : buffer_size < UINT) :
    ∃ N w0 w1 buf1,
      (∀ fuel, N ≤ fuel →
        w25q_wait_until_available d fuel w = some w0 ∧
        w25q_page_program d fuel address buffer buffer_size w =
          some (w1, buf1, min buffer_size (256 - address % 256 + 4) - 4)) ∧
      w1.bus = w0.bus ++ cmdTrace W25Q_WRITE_ENABLE ++
        [BusEvent.delay 1,
         BusEvent.transfer (min buffer_size (256 - address % 256 + 4))
           ((with_header W25Q_PAGE_PROGRAM address buffer).take
             (min buffer_size (256 - address % 256 + 4))),
         BusEvent.delay 1] ++
        cmdTrace W25Q_WRITE_DISABLE ∧
      (min buffer_size (256 - address % 256 + 4) - 4) &&& 0x1ff =
        min buffer_size (256 - address % 256 + 4) - 4 := by
  obtain ⟨n, hn⟩ := hready w
  obtain ⟨w0, hw0⟩ := Option.isSome_iff_exists.mp hn
  obtain ⟨w1, buf1, hpp, hbus, -, -⟩ :=
    page_program_spec d n address buffer buffer_size w w0 hs hw0
  rw [page_program_limit_min address buffer_size h4 hs] at hpp hbus
  have hm : address % 256 < 256 := Nat.mod_lt _ (by decide)
  refine ⟨n, w0, w1, buf1, ?_, ?_, ?_⟩
  · intro fuel hfuel
    have hw := wait_mono d n w w0 hw0 fuel hfuel
    exact ⟨hw, by rw [page_program_fuel d n fuel address buffer buffer_size w w0 hw0 hw, hpp]⟩
  · rw [hbus]
    rfl
  · rw [and_1ff]
    have hle : min buffer_size (256 - address % 256 + 4) ≤ 260 :=
      le_trans (min_le_right _ _) (by omega)
    omega

/-- Witness of `page_program_chunk`: 260 bytes requested at address 0x1f0. -/
theorem page_program_chunk_witness :
    ∃ N w0 w1 buf1,
      (∀ fuel, N ≤ fuel →
        w25q_wait_until_available simDevice fuel (World.init SimFlash.erased) = some w0 ∧
        w25q_page_program simDevice fuel 0x1f0 (List.replicate 265 0) 260
          (World.init SimFlash.erased) =
          some (w1, buf1, min 260 (256 - 0x1f0 % 256 + 4) - 4)) ∧
      w1.bus = w0.bus ++ cmdTrace W25Q_WRITE_ENABLE ++
        [BusEvent.delay 1,
         BusEvent.transfer (min 260 (256 - 0x1f0 % 256 + 4))
           ((with_header W25Q_PAGE_PROGRAM 0x1f0 (List.replicate 265 0)).take
             (min 260 (256 - 0x1f0 % 256 + 4))),
         BusEvent.delay 1] ++
        cmdTrace W25Q_WRITE_DISABLE ∧
      (min 260 (256 - 0x1f0 % 256 + 4) - 4) &&& 0x1ff =
        min 260 (256 - 0x1f0 % 256 + 4) - 4 :=
  page_program_chunk simDevice simDevice_ready 0x1f0 (List.replicate 265 0) 260
    (World.init SimFlash.erased) (by decide) (by decide)

/-- A buffer with room for the header, after the header assignments, is the
four header bytes followed by the bytes behind the header. -/
theorem with_header_eq (op a : Nat) (buf : List Nat) (h4 : 4 ≤ buf.length) :
    with_header op a buf =
      [op, a / 65536 % 256, a / 256 % 256, a % 256] ++ buf.drop 4 := by
  match buf, h4 with
  | b0 :: b1 :: b2 :: b3 :: rest, _ =>
    simp [with_header, and_ff, shr8, shr16]

/-- The header depends on the address only through `address % 2^24`. -/
theorem with_header_mod (op a : Nat) (buf : List Nat) :
    with_header op a buf = with_header op (a % 16777216) buf := by
  have e1 : (a >>> 16) &&& 0xff = ((a % 16777216) >>> 16) &&& 0xff := by
    rw [and_ff, and_ff, shr16, shr16]; omega
  have e2 : (a >>> 8) &&& 0xff = ((a % 16777216) >>> 8) &&& 0xff := by
    rw [and_ff, and_ff, shr8, shr8]; omega
  have e3 : a &&& 0xff = (a % 16777216) &&& 0xff := by
    rw [and_ff, and_ff]; omega
  unfold with_header
  rw [e1, e2, e3]

/-- C19, as stated, fails: the validator accepts a read of `buffer_size = 2`
at address 0 into a 4-byte buffer, and `w25q_read` returns 1 after one
transfer of the 2 bytes `[0x03, 0x00]`: the transfer does not have the four
header bytes `[0x03, 0x00, 0x00, 0x00]`. -/
theorem read_frame_shorter_than_header :
    w25q_check_param (some { model := W25Q16_ID, size := 8192 }) 0
        (some [0xaa, 0xbb, 0xcc, 0xdd]) 2 = 1 ∧
    (w25q_read simDevice (some { model := W25Q16_ID, size := 8192 }) 0
        (some [0xaa, 0xbb, 0xcc, 0xdd]) 2 (World.init SimFlash.erased)).1.bus =
      [BusEvent.transfer 2 [W25Q_READ_DATA, 0x00], BusEvent.delay 1] ∧
    (w25q_read simDevice (some { model := W25Q16_ID, size := 8192 }) 0
        (some [0xaa, 0xbb, 0xcc, 0xdd]) 2 (World.init SimFlash.erased)).2 =
      (some [0xff, 0xff, 0x00, 0x00], 1) ∧
    [W25Q_READ_DATA, 0x00].length < 4 ∧
    [W25Q_READ_DATA, 0x00].take 4 ≠ [W25Q_READ_DATA, 0x00, 0x00, 0x00] := by
  decide

/-- C19, amended: addressed frames carry the address as three big-endian
bytes.  For a buffer with room for the header, on a device that eventually
reports ready, the frame `w25q_page_program` transmits is the first
`4 + count` bytes of `[0x02, address[23:16], address[15:8], address[7:0]]`
followed by the caller's bytes behind the header, unchanged.  For parameters
the validator accepts, `w25q_read` issues exactly one transfer, of
`buffer_size` bytes, carrying the first `buffer_size` bytes of
`[0x03, address[23:16], address[15:8], address[7:0]]` followed by the caller's
bytes, then one delay; when `buffer_size ≥ 4` the first four bytes of the
transfer are that header.  The buffer afterwards holds the device's response
byte `i` at index `i` for every `i < buffer_size`, so the data begins at
`buffer[4]`.  Both frames are unchanged when the address is replaced by
`address % 2^24`. -/
theorem frames_big_endian {σ : Type} (d : Device σ) (hready : Ready d)
    (flash : Option Flash) (address : Nat) (buffer : List Nat) (buffer_size : Nat)
    (w : World σ) (hs : buffer_size < UINT) (hlen : 4 ≤ buffer.length) :
    (∃ N w0 w1 buf1 ret,
      (∀ fuel, N ≤ fuel →
        w25q_wait_until_available d fuel w = some w0 ∧
        w25q_page_program d fuel address buffer buffer_size w = some (w1, buf1, ret)) ∧
      w1.bus = w0.bus ++ cmdTrace W25Q_WRITE_ENABLE ++
        [BusEvent.delay 1,
         BusEvent.transfer (4 + ret)
           (([W25Q_PAGE_PROGRAM, address / 65536 % 256, address / 256 % 256, address % 256] ++
              buffer.drop 4).take (4 + ret)),
         BusEvent.delay 1] ++
        cmdTrace W25Q_WRITE_DISABLE) ∧
    (w25q_check_param flash address (some buffer) buffer_size = 1 →
      ∃ w2 buf2,
        w25q_read d flash address (some buffer) buffer_size w = (w2, some buf2, 1) ∧
        w2.bus = w.bus ++
          [BusEvent.transfer buffer_size
             (([W25Q_READ_DATA, address / 65536 % 256, address / 256 % 256, address % 256] ++
                buffer.drop 4).take buffer_size),
           BusEvent.delay 1] ∧
        (4 ≤ buffer_size →
          ((([W25Q_READ_DATA, address / 65536 % 256, address / 256 % 256, address % 256] ++
              buffer.drop 4).take buffer_size).take 4 =
            [W25Q_READ_DATA, address / 65536 % 256, address / 256 % 256, address % 256])) ∧
        buf2 = (List.range buffer_size).map (fun i =>
            (d.transfer w.dev
              (([W25Q_READ_DATA, address / 65536 % 256, address / 256 % 256, address % 256] ++
                buffer.drop 4).take buffer_size)).2.getD i 0xff) ++
          ([W25Q_READ_DATA, address / 65536 % 256, address / 256 % 256, address % 256] ++
            buffer.drop 4).drop buffer_size) ∧
    (with_header W25Q_PAGE_PROGRAM address buffer =
        with_header W25Q_PAGE_PROGRAM (address % 16777216) buffer ∧
      with_header W25Q_READ_DATA address buffer =
        with_header W25Q_READ_DATA (address % 16777216) buffer) := by
  refine ⟨?_, ?_, with_header_mod _ _ _, with_header_mod _ _ _⟩
  · obtain ⟨n, hn⟩ := hready w
    obtain ⟨w0, hw0⟩ := Option.isSome_iff_exists.mp hn
    obtain ⟨w1, buf1, hpp, hbus, -, -⟩ :=
      page_program_spec d n address buffer buffer_size w w0 hs hw0
    have hb := page_program_limit_bounds address buffer_size hs
    refine ⟨n, w0, w1, buf1, page_program_limit address buffer_size - 4, ?_, ?_⟩
    · intro fuel hfuel
      have hw := wait_mono d n w w0 hw0 fuel hfuel
      exact ⟨hw, by rw [page_program_fuel d n fuel address buffer buffer_size w w0 hw0 hw, hpp]⟩
    · rw [hbus]
      have e : 4 + (page_program_limit address buffer_size - 4) =
          page_program_limit address buffer_size := by omega
      rw [e, with_header_eq _ _ _ hlen]
      rfl
  · intro hv
    unfold w25q_read
    rw [hv, if_neg (by decide)]
    refine ⟨_, _, rfl, ?_, ?_, ?_⟩
    · show (spi_delay_func d W25Q_DELAY_TIME
          (spi_send d (with_header W25Q_READ_DATA address buffer) buffer_size w).1).bus = _
      rw [with_header_eq _ _ _ hlen]
      simp [spi_delay_func, spi_send, W25Q_DELAY_TIME]
    · intro h4
      rw [List.take_take, min_eq_left h4]
      rfl
    · show (spi_send d (with_header W25Q_READ_DATA address buffer) buffer_size w).2 = _
      rw [with_header_eq _ _ _ hlen]
      rfl

/-! ## Busy poll -/

/-- The two bytes `w25q_read_status_regs` returns are the second response
bytes of its two transfers. -/
theorem read_status_regs_values {σ : Type} (d : Device σ) (buffer : List Nat) (w : World σ) :
    (w25q_read_status_regs d buffer w).2.getD 0 0 =
        (d.transfer (d.delay w.dev 1) [0x05, 0xff]).2.getD 1 0xff ∧
      (w25q_read_status_regs d buffer w).2.getD 1 0 =
        (d.transfer
          (d.delay (d.delay (d.transfer (d.delay w.dev 1) [0x05, 0xff]).1 1) 1)
          [0x35, 0xff]).2.getD 1 0xff := by
  have h2 : List.range 2 = [0, 1] := rfl
  simp [w25q_read_status_regs, spi_send, spi_delay_func, set_dummy_bytes,
    W25Q_DELAY_TIME, W25Q_READ_STATUS_REG_1, W25Q_READ_STATUS_REG_2, h2]

/-- A busy poll that finds the device busy at its first `n` status reads and
ready at the next one ends with that read. -/
theorem wait_after_busy {σ : Type} (d : Device σ) (n : Nat) :
    ∀ (w : World σ), (∀ k, k < n → reg1At d k w &&& 0x1 ≠ 0) → reg1At d n w &&& 0x1 = 0 →
      ∀ fuel, n + 1 ≤ fuel →
        w25q_wait_until_available d fuel w =
            some (w25q_read_status_regs d (List.replicate 3 0) (pollWorld d n w)).1 ∧
          (w25q_read_status_regs d (List.replicate 3 0) (pollWorld d n w)).1.bus =
            w.bus ++ waitTrace n := by
  induction n with
  | zero =>
    intro w _ hr fuel hfuel
    obtain ⟨m, rfl⟩ : ∃ m, fuel = m + 1 := ⟨fuel - 1, by omega⟩
    have hr0 : (w25q_read_status_regs d (List.replicate 3 0) w).2.getD 0 0 &&& 0x1 = 0 := hr
    simp only [w25q_wait_until_available]
    rw [if_pos hr0]
    exact ⟨rfl, (read_status_regs_bus d _ w).1⟩
  | succ n ih =>
    intro w hb hr fuel hfuel
    obtain ⟨m, rfl⟩ : ∃ m, fuel = m + 1 := ⟨fuel - 1, by omega⟩
    have h0 : (w25q_read_status_regs d (List.replicate 3 0) w).2.getD 0 0 &&& 0x1 ≠ 0 :=
      hb 0 (by omega)
    obtain ⟨h1, h2⟩ := ih
      (spi_delay_func d W25Q_DELAY_TIME (w25q_read_status_regs d (List.replicate 3 0) w).1)
      (fun k hk => hb (k + 1) (by omega)) hr m (by omega)
    simp only [w25q_wait_until_available]
    rw [if_neg h0]
    refine ⟨h1, ?_⟩
    show (w25q_read_status_regs d (List.replicate 3 0) (pollWorld d n _)).1.bus = _
    rw [h2]
    simp [spi_delay_func, (read_status_regs_bus d _ w).1, waitTrace, W25Q_DELAY_TIME]

theorem delayCount_append (l1 l2 : List BusEvent) :
    delayCount (l1 ++ l2) = delayCount l1 + delayCount l2 := by
  simp [delayCount]

theorem waitTrace_counts (n : Nat) :
    opcodeCount W25Q_READ_STATUS_REG_1 (waitTrace n) = n + 1 ∧
      opcodeCount W25Q_READ_STATUS_REG_2 (waitTrace n) = n + 1 ∧
      delayCount (waitTrace n) = 4 * (n + 1) + n := by
  induction n with
  | zero => decide
  | succ n ih =>
    obtain ⟨h1, h2, h3⟩ := ih
    have p1 : opcodeCount W25Q_READ_STATUS_REG_1 pollTrace = 1 := by decide
    have p2 : opcodeCount W25Q_READ_STATUS_REG_2 pollTrace = 1 := by decide
    have p3 : delayCount pollTrace = 4 := by decide
    have q1 : opcodeCount W25Q_READ_STATUS_REG_1 [BusEvent.delay 1] = 0 := by decide
    have q2 : opcodeCount W25Q_READ_STATUS_REG_2 [BusEvent.delay 1] = 0 := by decide
    have q3 : delayCount [BusEvent.delay 1] = 1 := by decide
    simp only [waitTrace, opcodeCount_append, delayCount_append, h1, h2, h3, p1, p2, p3,
      q1, q2, q3]
    omega

/-- C20: if the first `n` status reads of a busy poll return status register
1 with bit 0 set and the next one returns it with bit 0 clear, then
`w25q_wait_until_available` returns (with any fuel above `n`) right after that
read: its bus trace is `n + 1` status reads with one inter-poll delay after
each of the first `n`, so `n + 1` transfers `[0x05, 0xFF]`, `n + 1` transfers
`[0x35, 0xFF]` and `4 (n + 1) + n` delays.  Each status read is the two
transfers `[0x05, 0xFF]`, `[0x35, 0xFF]` between delays and returns the second
response byte of each.  Only bit 0 of register 1 enters the hypotheses. -/
theorem wait_until_available_polls {σ : Type} (d : Device σ) (n : Nat) (w : World σ)
    (hbusy : ∀ k, k < n → reg1At d k w &&& 0x1 ≠ 0)
    (hready : reg1At d n w &&& 0x1 = 0) :
    (∃ w1, (∀ fuel, n + 1 ≤ fuel → w25q_wait_until_available d fuel w = some w1) ∧
      w1.bus = w.bus ++ waitTrace n ∧ w1.calls = w.calls) ∧
    (opcodeCount W25Q_READ_STATUS_REG_1 (waitTrace n) = n + 1 ∧
      opcodeCount W25Q_READ_STATUS_REG_2 (waitTrace n) = n + 1 ∧
      delayCount (waitTrace n) = 4 * (n + 1) + n) ∧
    (∀ (buffer : List Nat) (v : World σ),
      (w25q_read_status_regs d buffer v).1.bus = v.bus ++
        [BusEvent.delay 1, BusEvent.transfer 2 [0x05, 0xff], BusEvent.delay 1,
         BusEvent.delay 1, BusEvent.transfer 2 [0x35, 0xff], BusEvent.delay 1] ∧
      (w25q_read_status_regs d buffer v).2.getD 0 0 =
        (d.transfer (d.delay v.dev 1) [0x05, 0xff]).2.getD 1 0xff ∧
      (w25q_read_status_regs d buffer v).2.getD 1 0 =
        (d.transfer
          (d.delay (d.delay (d.transfer (d.delay v.dev 1) [0x05, 0xff]).1 1) 1)
          [0x35, 0xff]).2.getD 1 0xff) := by
  refine ⟨⟨(w25q_read_status_regs d (List.replicate 3 0) (pollWorld d n w)).1, ?_, ?_, ?_⟩,
    waitTrace_counts n, ?_⟩
  · intro fuel hfuel
    exact (wait_after_busy d n w hbusy hready fuel hfuel).1
  · exact (wait_after_busy d n w hbusy hready (n + 1) (le_refl _)).2
  · exact (wait_bus d (n + 1) w _
      (wait_after_busy d n w hbusy hready (n + 1) (le_refl _)).1).2
  · intro buffer v
    exact ⟨(read_status_regs_bus d buffer v).1, read_status_regs_values d buffer v⟩

/-- Witness of `wait_until_available_polls`: a device busy for two status
reads. -/
theorem wait_until_available_polls_witness :
    (∃ w1, (∀ fuel, 2 + 1 ≤ fuel →
        w25q_wait_until_available busyDevice fuel (World.init 2) = some w1) ∧
      w1.bus = (World.init 2).bus ++ waitTrace 2 ∧ w1.calls = (World.init 2).calls) ∧
    (opcodeCount W25Q_READ_STATUS_REG_1 (waitTrace 2) = 2 + 1 ∧
      opcodeCount W25Q_READ_STATUS_REG_2 (waitTrace 2) = 2 + 1 ∧
      delayCount (waitTrace 2) = 4 * (2 + 1) + 2) ∧
    (∀ (buffer : List Nat) (v : World Nat),
      (w25q_read_status_regs busyDevice buffer v).1.bus = v.bus ++
        [BusEvent.delay 1, BusEvent.transfer 2 [0x05, 0xff], BusEvent.delay 1,
         BusEvent.delay 1, BusEvent.transfer 2 [0x35, 0xff], BusEvent.delay 1] ∧
      (w25q_read_status_regs busyDevice buffer v).2.getD 0 0 =
        (busyDevice.transfer (busyDevice.delay v.dev 1) [0x05, 0xff]).2.getD 1 0xff ∧
      (w25q_read_status_regs busyDevice buffer v).2.getD 1 0 =
        (busyDevice.transfer
          (busyDevice.delay (busyDevice.delay
            (busyDevice.transfer (busyDevice.delay v.dev 1) [0x05, 0xff]).1 1) 1)
          [0x35, 0xff]).2.getD 1 0xff) :=
  wait_until_available_polls busyDevice 2 (World.init 2) (by decide) (by decide)

/-! ## Ranged erase: the frames -/

theorem framesWith_append (op : Nat) (l1 l2 : List BusEvent) :
    framesWith op (l1 ++ l2) = framesWith op l1 ++ framesWith op l2 := by
  simp [framesWith]

theorem framesWith_pollTrace (op : Nat) (h1 : op ≠ 0x05) (h2 : op ≠ 0x35) :
    framesWith op pollTrace = [] := by
  simp [framesWith, pollTrace, Ne.symm h1, Ne.symm h2]

theorem framesWith_waitTrace (op : Nat) (h1 : op ≠ 0x05) (h2 : op ≠ 0x35) (k : Nat) :
    framesWith op (waitTrace k) = [] := by
  induction k with
  | zero => exact framesWith_pollTrace op h1 h2
  | succ k ih =>
    simp only [waitTrace, framesWith_append, ih, framesWith_pollTrace op h1 h2]
    simp [framesWith]

/-- The frame `w25q_sector_erase` builds is the sector frame of the address
rounded down to a multiple of 4096. -/
theorem sector_cmd_eq (a : Nat) :
    [W25Q_SECTOR_ERASE, (a >>> 16) &&& 0xff, (a >>> 8) &&& 0xf0, 0] =
      sectorFrame (a / 4096 * 4096) := by
  have h : (a >>> 8) &&& 0xf0 = a / 4096 * 4096 / 256 % 256 := by
    have e : (a >>> 8) &&& 0xf0 = ((a >>> 12) &&& 0xf) <<< 4 := by
      apply Nat.eq_of_testBit_eq
      intro j
      have h0 : (0xf0 : Nat) = (2 ^ 4 - 1) <<< 4 := by decide
      have h1 : (0xf : Nat) = 2 ^ 4 - 1 := by decide
      rw [h0, h1]
      simp only [Nat.testBit_shiftRight, Nat.testBit_and, Nat.testBit_shiftLeft,
        Nat.testBit_two_pow_sub_one]
      by_cases hj : 4 ≤ j
      · have e2 : 12 + (j - 4) = 8 + j := by omega
        simp [hj, e2]
      · simp [hj]
    rw [e, Nat.shiftLeft_eq, shr12]
    have h1 : (0xf : Nat) = 2 ^ 4 - 1 := by decide
    rw [h1, Nat.and_pow_two_sub_one_eq_mod]
    omega
  unfold sectorFrame
  rw [h, and_ff, shr16]
  congr 1
  congr 1
  · omega
  · congr 1
    congr 1
    omega

theorem framesWith_cmdTrace (op c : Nat) (h : c ≠ op) : framesWith op (cmdTrace c) = [] := by
  simp [framesWith, cmdTrace, h]

theorem framesWith_frameTrace (op size : Nat) (frame : List Nat)
    (h : frame.head? = some op) : framesWith op (frameTrace size frame) = [frame] := by
  simp [framesWith, frameTrace, h]

/-- The 24-bit address carried by a sector frame. -/
theorem frame_address_sectorFrame (A : Nat) :
    frame_address (sectorFrame A) = A % 16777216 := by
  simp only [frame_address, sectorFrame, List.getD_cons_succ, List.getD_cons_zero]
  omega

/-- The erase loop on a device that eventually reports ready: the sector-erase
frames it sends, in order. -/
theorem erase_loop_frames {σ : Type} (d : Device σ) (hready : Ready d) (flash : Flash)
    (end_address : Nat) (hend : end_address + 4096 ≤ UINT) (hsize : 0 < flash.size)
    (hcap : end_address / 256 ≤ flash.size) (r : Nat) :
    ∀ (start_address : Nat) (w : World σ),
      (end_address - start_address + 4095) / 4096 = r →
      ∃ N w1 evs,
        (∀ fuel n, N ≤ fuel → r < n →
          w25q_erase_loop d fuel flash end_address n start_address w = some w1) ∧
        w1.bus = w.bus ++ evs ∧
        framesWith W25Q_SECTOR_ERASE evs =
          (List.range r).map
            (fun k => sectorFrame ((start_address + 4096 * k) / 4096 * 4096)) := by
  induction r with
  | zero =>
    intro start_address w hr
    refine ⟨0, w, [], ?_, by simp, rfl⟩
    intro fuel n _ hn
    obtain ⟨n, rfl⟩ : ∃ k, n = k + 1 := ⟨n - 1, by omega⟩
    simp only [w25q_erase_loop]
    rw [if_neg (by omega)]
  | succ r ih =>
    intro start_address w hr
    have hlt : start_address < end_address := by omega
    have hsec : (start_address >>> 12) &&& 0xfffff < flash.size := by
      rw [sector_num_eq start_address (by unfold UINT at *; omega)]
      omega
    obtain ⟨N0, w0, k0, k1, hse, hb0, -⟩ :=
      sector_erase_total d hready flash start_address w hsec
    have hnext : (start_address + 4096) % UINT = start_address + 4096 :=
      Nat.mod_eq_of_lt (by omega)
    obtain ⟨N1, w1, evs, hloop, hb1, hfr⟩ := ih (start_address + 4096) w0 (by omega)
    refine ⟨max N0 N1, w1,
      (waitTrace k0 ++ cmdTrace 0x06 ++
        frameTrace 4 [0x20, (start_address >>> 16) &&& 0xff,
          (start_address >>> 8) &&& 0xf0, 0] ++ waitTrace k1) ++ evs,
      ?_, ?_, ?_⟩
    · intro fuel n hfuel hn
      obtain ⟨n, rfl⟩ : ∃ k, n = k + 1 := ⟨n - 1, by omega⟩
      simp only [w25q_erase_loop]
      rw [if_pos hlt, hse fuel (le_trans (le_max_left _ _) hfuel)]
      simp only [hnext]
      exact hloop fuel n (le_trans (le_max_right _ _) hfuel) (by omega)
    · rw [hb1, hb0, List.append_assoc]
    · have hfrm : framesWith W25Q_SECTOR_ERASE
          (frameTrace 4 [0x20, (start_address >>> 16) &&& 0xff,
            (start_address >>> 8) &&& 0xf0, 0]) =
          [sectorFrame (start_address / 4096 * 4096)] := by
        rw [framesWith_frameTrace W25Q_SECTOR_ERASE 4 _ (by rfl)]
        exact congrArg (fun x => [x]) (sector_cmd_eq start_address)
      rw [framesWith_append, framesWith_append, framesWith_append, framesWith_append, hfr,
        framesWith_waitTrace W25Q_SECTOR_ERASE (by decide) (by decide),
        framesWith_waitTrace W25Q_SECTOR_ERASE (by decide) (by decide),
        framesWith_cmdTrace W25Q_SECTOR_ERASE 0x06 (by decide), hfrm,
        List.range_succ_eq_map, List.map_cons, List.map_map]
      rw [List.nil_append, List.nil_append, List.append_nil, List.singleton_append,
        Nat.mul_zero, Nat.add_zero]
      refine congrArg (List.cons _) (List.map_congr_left ?_)
      intro k _
      show sectorFrame ((start_address + 4096 + 4096 * k) / 4096 * 4096) =
        sectorFrame ((start_address + 4096 * (k + 1)) / 4096 * 4096)
      have e : start_address + 4096 + 4096 * k = start_address + 4096 * (k + 1) := by ring
      rw [e]

/-- C11, as stated, fails: with a handle identified as `W25Q256_ID` (131072
pages) the accepted range `[2^24 - 4096, 2^24 + 4096)` makes `w25q_erase` send
two sector-erase frames whose carried addresses are `0xFFF000` and then `0`:
aligned, but not increasing, since the frame holds only address bits 23..0. -/
theorem erase_frame_addresses_wrap :
    (w25q_mount (idDevice 0xef 0x40 0x19) 11 { model := 0, size := 0 } (World.init ())).map
        (fun r => r.2) = some (some { model := W25Q256_ID, size := 131072 }) ∧
    (w25q_erase simDevice 3 { model := W25Q256_ID, size := 131072 } 16773120 16781312
        (World.init SimFlash.erased)).map
        (fun r => (r.2, framesWith W25Q_SECTOR_ERASE r.1.bus,
          (framesWith W25Q_SECTOR_ERASE r.1.bus).map frame_address)) =
      some (1, [[0x20, 0xff, 0xf0, 0], [0x20, 0, 0, 0]], [16773120, 0]) ∧
    ¬ List.Pairwise (fun a b => a < b) [16773120, 0] := by
  decide

/-- C11, amended: for a handle populated by a successful mount and an
accepted range (`start < end`, `end >> 8` at most the capacity), on a device
that eventually reports ready, `w25q_erase` returns 1 and the sector-erase
frames it sends are, in order, `[0x20, A[23:16], A[15:8], A[7:0]]` for
`A = (start + 4096 k)` rounded down to a multiple of 4096,
`k = 0, …, ⌈(end - start) / 4096⌉ - 1`.  The address each frame carries is
`A % 2^24`, a multiple of 4096; the carried addresses are strictly increasing
when `end ≤ 2^24`. -/
theorem erase_frames {σ : Type} (d : Device σ) (hready : Ready d)
    (fuel0 : Nat) (flash0 f : Flash) (v v1 : World σ)
    (hm : w25q_mount d fuel0 flash0 v = some (v1, some f))
    (start_address end_address : Nat) (w : World σ)
    (hlt : start_address < end_address) (hacc : end_address >>> 8 ≤ f.size) :
    ∃ N w1 evs,
      (∀ fuel, N ≤ fuel →
        w25q_erase d fuel f start_address end_address w = some (w1, 1)) ∧
      w1.bus = w.bus ++ evs ∧
      framesWith W25Q_SECTOR_ERASE evs =
        (List.range ((end_address - start_address + 4095) / 4096)).map
          (fun k => sectorFrame ((start_address + 4096 * k) / 4096 * 4096)) ∧
      (∀ fr ∈ framesWith W25Q_SECTOR_ERASE evs, frame_address fr % 4096 = 0) ∧
      (end_address ≤ 16777216 →
        List.Pairwise (fun a b => a < b)
          ((framesWith W25Q_SECTOR_ERASE evs).map frame_address)) := by
  have hsz := mount_some_size_bounds d fuel0 flash0 f v v1 hm
  rw [shr8] at hacc
  have hend : end_address + 4096 ≤ UINT := by unfold UINT; omega
  obtain ⟨N, w1, evs, hloop, hb, hfr⟩ :=
    erase_loop_frames d hready f end_address hend (by omega) hacc _ start_address w rfl
  refine ⟨max N ((end_address - start_address + 4095) / 4096 + 1), w1, evs, ?_, hb, hfr,
    ?_, ?_⟩
  · intro fuel hfuel
    unfold w25q_erase
    rw [if_neg (by omega), shr8, if_neg (by omega)]
    rw [hloop fuel fuel (le_trans (le_max_left _ _) hfuel)
      (lt_of_lt_of_le (Nat.lt_succ_self _) (le_trans (le_max_right _ _) hfuel))]
  · intro fr hfrm
    rw [hfr, List.mem_map] at hfrm
    obtain ⟨k, -, rfl⟩ := hfrm
    rw [frame_address_sectorFrame]
    omega
  · intro h24
    rw [hfr, List.map_map, List.pairwise_map]
    refine List.Pairwise.imp_of_mem ?_ (List.pairwise_lt_range _)
    intro a b ha hb' hab
    rw [List.mem_range] at ha hb'
    simp only [Function.comp, frame_address_sectorFrame]
    omega

/-- Witness of `erase_frames`: the example's erase of the first sector on the
simulated chip after its mount. -/
theorem erase_frames_witness :
    ∃ N w1 evs,
      (∀ fuel, N ≤ fuel →
        w25q_erase simDevice fuel { model := W25Q16_ID, size := 8192 } 0 4095
          (World.init SimFlash.erased) = some (w1, 1)) ∧
      w1.bus = (World.init SimFlash.erased).bus ++ evs ∧
      framesWith W25Q_SECTOR_ERASE evs =
        (List.range ((4095 - 0 + 4095) / 4096)).map
          (fun k => sectorFrame ((0 + 4096 * k) / 4096 * 4096)) ∧
      (∀ fr ∈ framesWith W25Q_SECTOR_ERASE evs, frame_address fr % 4096 = 0) ∧
      (4095 ≤ 16777216 →
        List.Pairwise (fun a b => a < b)
          ((framesWith W25Q_SECTOR_ERASE evs).map frame_address)) :=
  erase_frames simDevice simDevice_ready 11 { model := 0, size := 0 }
    { model := W25Q16_ID, size := 8192 } (World.init SimFlash.erased)
    (w25q_read_jedec simDevice (List.replicate 4 0) (World.init SimFlash.erased)).1
    (by rfl) 0 4095 (World.init SimFlash.erased) (by decide) (by decide)

/-- C12, at the failing input: a 512-page chip has `512 / 16 = 32` sectors,
so address 131072 is in sector 32, outside the chip; but `w25q_sector_erase`
compares the sector index with the capacity in pages, `32 ≥ 512` is false, and
it sends the erase frame and returns 1. -/
theorem sector_erase_accepts_sector_past_capacity :
    131072 / 4096 ≥ W25Q10_SIZE / 16 ∧
    (w25q_sector_erase simDevice 1 { model := W25Q10_ID, size := W25Q10_SIZE } 131072
        (World.init SimFlash.erased)).map (fun r => (r.1.bus, r.2)) =
      some (pollTrace ++ cmdTrace W25Q_WRITE_ENABLE ++
        frameTrace 4 [W25Q_SECTOR_ERASE, 0x02, 0x00, 0] ++ pollTrace, 1) := by
  decide

/-- Witness of `frames_big_endian`: 12 bytes at address `0x012345` of the
simulated chip. -/
theorem frames_big_endian_witness :
    (∃ N w0 w1 buf1 ret,
      (∀ fuel, N ≤ fuel →
        w25q_wait_until_available simDevice fuel (World.init SimFlash.erased) = some w0 ∧
        w25q_page_program simDevice fuel 0x012345 (List.replicate 12 0) 12
          (World.init SimFlash.erased) = some (w1, buf1, ret)) ∧
      w1.bus = w0.bus ++ cmdTrace W25Q_WRITE_ENABLE ++
        [BusEvent.delay 1,
         BusEvent.transfer (4 + ret)
           (([W25Q_PAGE_PROGRAM, 0x012345 / 65536 % 256, 0x012345 / 256 % 256,
               0x012345 % 256] ++ (List.replicate 12 0).drop 4).take (4 + ret)),
         BusEvent.delay 1] ++
        cmdTrace W25Q_WRITE_DISABLE) ∧
    (w25q_check_param (some { model := W25Q16_ID, size := 8192 }) 0x012345
        (some (List.replicate 12 0)) 12 = 1 →
      ∃ w2 buf2,
        w25q_read simDevice (some { model := W25Q16_ID, size := 8192 }) 0x012345
          (some (List.replicate 12 0)) 12 (World.init SimFlash.erased) = (w2, some buf2, 1) ∧
        w2.bus = (World.init SimFlash.erased).bus ++
          [BusEvent.transfer 12
             (([W25Q_READ_DATA, 0x012345 / 65536 % 256, 0x012345 / 256 % 256,
                 0x012345 % 256] ++ (List.replicate 12 0).drop 4).take 12),
           BusEvent.delay 1] ∧
        (4 ≤ 12 →
          ((([W25Q_READ_DATA, 0x012345 / 65536 % 256, 0x012345 / 256 % 256,
               0x012345 % 256] ++ (List.replicate 12 0).drop 4).take 12).take 4 =
            [W25Q_READ_DATA, 0x012345 / 65536 % 256, 0x012345 / 256 % 256,
              0x012345 % 256])) ∧
        buf2 = (List.range 12).map (fun i =>
            (simDevice.transfer (World.init SimFlash.erased).dev
              (([W25Q_READ_DATA, 0x012345 / 65536 % 256, 0x012345 / 256 % 256,
                  0x012345 % 256] ++ (List.replicate 12 0).drop 4).take 12)).2.getD i 0xff) ++
          ([W25Q_READ_DATA, 0x012345 / 65536 % 256, 0x012345 / 256 % 256, 0x012345 % 256] ++
            (List.replicate 12 0).drop 4).drop 12) ∧
    (with_header W25Q_PAGE_PROGRAM 0x012345 (List.replicate 12 0) =
        with_header W25Q_PAGE_PROGRAM (0x012345 % 16777216) (List.replicate 12 0) ∧
      with_header W25Q_READ_DATA 0x012345 (List.replicate 12 0) =
        with_header W25Q_READ_DATA (0x012345 % 16777216) (List.replicate 12 0)) :=
  frames_big_endian simDevice simDevice_ready (some { model := W25Q16_ID, size := 8192 })
    0x012345 (List.replicate 12 0) 12 (World.init SimFlash.erased) (by decide) (by decide)

/-! ## Page program: lengths below the header size -/

/-- For a length below the header size the unsigned `buffer_size - 4` wraps
and the `limit` is the rest of the page plus the header, above the length. -/
theorem page_program_limit_small (address buffer_size : Nat) (h : buffer_size < 4) :
    page_program_limit address buffer_size = 256 - address % 256 + 4 ∧
      buffer_size < page_program_limit address buffer_size := by
  have hs : buffer_size < UINT := by unfold UINT; omega
  have hm : address % 256 < 256 := Nat.mod_lt _ (by decide)
  rw [page_program_limit_eq address buffer_size hs, if_neg (by omega)]
  exact ⟨rfl, by omega⟩

set_option maxRecDepth 100000 in
/-- C21, as stated, fails at `buffer_size = 3`: with the 265-byte scratch
buffer of `w25q_write`, `w25q_page_program` at address 0 is given
`buffer_size = 3`, the unsigned `3 - 4` wraps above the rest of the page, the
`limit` is 260, the transfer gets the 260 bytes `buffer[0..260)` and 256 is
returned. -/
theorem page_program_limit_exceeds_small_size :
    page_program_limit 0 3 = 260 ∧ ¬ (page_program_limit 0 3 ≤ 3) ∧
    (w25q_page_program simDevice 1 0 (List.replicate 265 0) 3
        (World.init SimFlash.erased)).map (fun r => (r.1.bus, r.2.2)) =
      some (pollTrace ++ cmdTrace W25Q_WRITE_ENABLE ++
        [BusEvent.delay 1,
         BusEvent.transfer 260 ([W25Q_PAGE_PROGRAM, 0, 0, 0] ++ List.replicate 256 0),
         BusEvent.delay 1] ++ cmdTrace W25Q_WRITE_DISABLE, 256) := by
  decide

/-- C21, amended: for every address and every `buffer_size` of at least 4
(the header the caller must reserve; the only caller, `w25q_write`, passes 5 to
260), on a device that eventually reports ready, `w25q_page_program` makes one
page-program transfer, and the number of bytes it hands to the transfer
capability does not exceed `buffer_size`. -/
theorem page_program_transfer_within_buffer_size {σ : Type} (d : Device σ)
    (hready : Ready d) (address : Nat) (buffer : List Nat) (buffer_size : Nat)
    (w : World σ) (h4 : 4 ≤ buffer_size) (hs : buffer_size < UINT) :
    ∃ N w0 w1 buf1 ret size,
      (∀ fuel, N ≤ fuel →
        w25q_wait_until_available d fuel w = some w0 ∧
        w25q_page_program d fuel address buffer buffer_size w = some (w1, buf1, ret)) ∧
      w1.bus = w0.bus ++ cmdTrace W25Q_WRITE_ENABLE ++
        [BusEvent.delay 1,
         BusEvent.transfer size ((with_header W25Q_PAGE_PROGRAM address buffer).take size),
         BusEvent.delay 1] ++
        cmdTrace W25Q_WRITE_DISABLE ∧
      size ≤ buffer_size ∧
      (buffer_size ≤ buffer.length →
        ((with_header W25Q_PAGE_PROGRAM address buffer).take size).length = size) := by
  obtain ⟨n, hn⟩ := hready w
  obtain ⟨w0, hw0⟩ := Option.isSome_iff_exists.mp hn
  obtain ⟨w1, buf1, hpp, hbus, -, -⟩ :=
    page_program_spec d n address buffer buffer_size w w0 hs hw0
  have hle : page_program_limit address buffer_size ≤ buffer_size := by
    rw [page_program_limit_eq address buffer_size hs]
    split_ifs with h <;> omega
  refine ⟨n, w0, w1, buf1, page_program_limit address buffer_size - 4,
    page_program_limit address buffer_size, ?_, ?_, hle, ?_⟩
  · intro fuel hfuel
    have hw := wait_mono d n w w0 hw0 fuel hfuel
    exact ⟨hw, by rw [page_program_fuel d n fuel address buffer buffer_size w w0 hw0 hw, hpp]⟩
  · rw [hbus]
    rfl
  · intro hroom
    rw [List.length_take, with_header_length]
    omega

/-- Witness of `page_program_transfer_within_buffer_size`: the call
`w25q_write` makes for 8 bytes at address 0: a 265-byte scratch buffer and
`buffer_size = 12`. -/
theorem page_program_transfer_within_buffer_size_witness :
    ∃ N w0 w1 buf1 ret size,
      (∀ fuel, N ≤ fuel →
        w25q_wait_until_available simDevice fuel (World.init SimFlash.erased) = some w0 ∧
        w25q_page_program simDevice fuel 0 (List.replicate 265 0) 12
          (World.init SimFlash.erased) = some (w1, buf1, ret)) ∧
      w1.bus = w0.bus ++ cmdTrace W25Q_WRITE_ENABLE ++
        [BusEvent.delay 1,
         BusEvent.transfer size
           ((with_header W25Q_PAGE_PROGRAM 0 (List.replicate 265 0)).take size),
         BusEvent.delay 1] ++
        cmdTrace W25Q_WRITE_DISABLE ∧
      size ≤ 12 ∧
      (12 ≤ (List.replicate 265 0).length →
        ((with_header W25Q_PAGE_PROGRAM 0 (List.replicate 265 0)).take size).length = size) :=
  page_program_transfer_within_buffer_size simDevice simDevice_ready 0
    (List.replicate 265 0) 12 (World.init SimFlash.erased) (by decide) (by decide)

/-! ## Ranged erase: the sectors covered -/

/-- C22, as stated, fails.  With the mounted 8192-page handle, `w25q_erase`
from 4095 to 4097 returns 1 after a single sector-erase frame, carrying address
0: byte 4096 of the range lies in sector 1, which receives no command.  And
with a handle identified as `W25Q256_ID`, the aligned range
`[2^24 - 4096, 2^24 + 4096)` returns 1 with frames carrying `0xFFF000` and `0`:
sector 4096, which holds byte `2^24`, receives no command either. -/
theorem erase_misses_sector :
    (w25q_mount simDevice 11 { model := 0, size := 0 } (World.init SimFlash.erased)).map
        (fun r => r.2) = some (some { model := W25Q16_ID, size := 8192 }) ∧
    (w25q_erase simDevice 2 { model := W25Q16_ID, size := 8192 } 4095 4097
        (World.init SimFlash.erased)).map
        (fun r => (r.2, (framesWith W25Q_SECTOR_ERASE r.1.bus).map frame_address)) =
      some (1, [0]) ∧
    (4095 ≤ 4096 ∧ 4096 < 4097 ∧ 4096 * (4096 / 4096) ∉ [0]) ∧
    (w25q_mount (idDevice 0xef 0x40 0x19) 11 { model := 0, size := 0 } (World.init ())).map
        (fun r => r.2) = some (some { model := W25Q256_ID, size := 131072 }) ∧
    (w25q_erase simDevice 3 { model := W25Q256_ID, size := 131072 } 16773120 16781312
        (World.init SimFlash.erased)).map
        (fun r => (r.2, (framesWith W25Q_SECTOR_ERASE r.1.bus).map frame_address)) =
      some (1, [16773120, 0]) ∧
    (16773120 ≤ 16777216 ∧ 16777216 < 16781312 ∧
      4096 * (16777216 / 4096) ∉ [16773120, 0]) := by
  decide

/-- C22, amended: for a handle populated by a successful mount and an
accepted range (`start < end`, `end >> 8` at most the capacity, which on a
device that eventually reports ready are the ranges for which `w25q_erase`
returns 1) with a 4096-aligned start and `end ≤ 2^24`, `w25q_erase` returns 1
and every sector holding a byte `x` of `[start, end)` receives a sector-erase
command: a frame with opcode `0x20` carrying the sector's address
`4096 * (x / 4096)`. -/
theorem erase_covers_sectors {σ : Type} (d : Device σ) (hready : Ready d)
    (fuel0 : Nat) (flash0 f : Flash) (v v1 : World σ)
    (hm : w25q_mount d fuel0 flash0 v = some (v1, some f))
    (start_address end_address : Nat) (w : World σ)
    (hlt : start_address < end_address) (hacc : end_address >>> 8 ≤ f.size)
    (halign : start_address % 4096 = 0) (h24 : end_address ≤ 16777216) :
    ∃ N w1 evs,
      (∀ fuel, N ≤ fuel →
        w25q_erase d fuel f start_address end_address w = some (w1, 1)) ∧
      w1.bus = w.bus ++ evs ∧
      ∀ x, start_address ≤ x → x < end_address →
        4096 * (x / 4096) ∈ (framesWith W25Q_SECTOR_ERASE evs).map frame_address := by
  have hsz := mount_some_size_bounds d fuel0 flash0 f v v1 hm
  rw [shr8] at hacc
  have hend : end_address + 4096 ≤ UINT := by unfold UINT; omega
  obtain ⟨N, w1, evs, hloop, hb, hfr⟩ :=
    erase_loop_frames d hready f end_address hend (by omega) hacc _ start_address w rfl
  refine ⟨max N ((end_address - start_address + 4095) / 4096 + 1), w1, evs, ?_, hb, ?_⟩
  · intro fuel hfuel
    unfold w25q_erase
    rw [if_neg (by omega), shr8, if_neg (by omega)]
    rw [hloop fuel fuel (le_trans (le_max_left _ _) hfuel)
      (lt_of_lt_of_le (Nat.lt_succ_self _) (le_trans (le_max_right _ _) hfuel))]
  · intro x hx1 hx2
    rw [hfr, List.map_map, List.mem_map]
    refine ⟨(x - start_address) / 4096, List.mem_range.mpr (by omega), ?_⟩
    show frame_address (sectorFrame _) = _
    rw [frame_address_sectorFrame]
    omega

/-- Witness of `erase_covers_sectors`: the example's erase of the first
sector, `w25q_erase(&flash, 0, 4095)`, on the simulated chip after its mount. -/
theorem erase_covers_sectors_witness :
    ∃ N w1 evs,
      (∀ fuel, N ≤ fuel →
        w25q_erase simDevice fuel { model := W25Q16_ID, size := 8192 } 0 4095
          (World.init SimFlash.erased) = some (w1, 1)) ∧
      w1.bus = (World.init SimFlash.erased).bus ++ evs ∧
      ∀ x, 0 ≤ x → x < 4095 →
        4096 * (x / 4096) ∈ (framesWith W25Q_SECTOR_ERASE evs).map frame_address :=
  erase_covers_sectors simDevice simDevice_ready 11 { model := 0, size := 0 }
    { model := W25Q16_ID, size := 8192 } (World.init SimFlash.erased)
    (w25q_read_jedec simDevice (List.replicate 4 0) (World.init SimFlash.erased)).1
    (by rfl) 0 4095 (World.init SimFlash.erased) (by decide) (by decide) (by decide)
    (by decide)

end W25Q
